import Mathlib

/-!
# Verification of the scaling-book translation/localization pipeline

A shallow embedding, in Lean 4, of the content-preserving HTML translation
and localization pipeline of this repository (`src/translator.py`,
`src/link_localizer.py`, `src/header_info_adder.py`), together with proofs
and refutations of the frozen claims about it.

## Modelling conventions

The Python code manipulates HTML through BeautifulSoup (`html.parser`).
We embed parsed documents as a forest of nodes (`Node`/`Forest` below) and
embed each Python function as a Lean function over this representation,
following the source line by line.  The serialize/re-parse steps that the
source performs between pipeline stages (`str(tag)` followed by
`BeautifulSoup(...)`) are modelled as the identity on the node
representation; rendering (`render`) is the non-entity-escaping
serialization, which is exact for documents whose text nodes and attribute
values contain no markup metacharacters.  Python `str` values are Lean
`String`s; all string operations used by the source (`strip`, `split`,
`startswith`, `in`, `rstrip('/')`, `str.replace`, the one regex
`lang="[^"]*"`) are defined here from scratch over `String.data` so that
they compute by kernel reduction.  Python dicts keyed by strings are
association lists: `math_content_store` is built with fresh keys (lookup is
first-match), while URL mappings use Python's overwrite semantics (lookup
is last-match, `dget`).  `urlparse` is modelled for URLs built from a
scheme, `//`-authority, path, query (`?`) and fragment (`#`); the rarely
used `;parameter` component and non-ASCII case folding are outside the
model.  Exceptions: every embedded function is total; the source's
`try/except` wrappers around the functions treated here can only fire on
exceptions raised by BeautifulSoup itself, which the embedding has no
counterpart of, so the fallback branches are noted where they matter.
-/

namespace ScalingBook

/-! ## Python-style string primitives (over `List Char`) -/

/-- Python `str.strip()` whitespace set (ASCII part). -/
def pyWs (c : Char) : Bool :=
  c = ' ' || c = '\t' || c = '\n' || c = '\r' || c = '\x0b' || c = '\x0c'

/-- Drop chars satisfying `p` from the end of a list. -/
def dropTrail (p : Char → Bool) (l : List Char) : List Char :=
  (l.reverse.dropWhile p).reverse

/-- Python `str.strip()`. -/
def pyStrip (s : String) : String :=
  ⟨dropTrail pyWs (s.data.dropWhile pyWs)⟩

/-- Python `str.strip('/')`. -/
def stripSlashes (s : String) : String :=
  ⟨dropTrail (· = '/') (s.data.dropWhile (· = '/'))⟩

/-- Python `str.rstrip('/')`. -/
def rstripSlashes (s : String) : String :=
  ⟨dropTrail (· = '/') s.data⟩

/-- Python `s.startswith(pre)`. -/
def pyStartswith (s pre : String) : Bool :=
  pre.data.isPrefixOf s.data

/-- Python `s.endswith('/')`. -/
def endsWithSlash (s : String) : Bool :=
  match s.data.reverse with
  | [] => false
  | c :: _ => c = '/'

/-- Substring test on char lists: `needle` occurs inside `hay`. -/
def infixChars : List Char → List Char → Bool
  | p, [] => p.isPrefixOf []
  | p, c :: t => p.isPrefixOf (c :: t) || infixChars p (t)

/-- Python `needle in hay`. -/
def pyIn (needle hay : String) : Bool :=
  infixChars needle.data hay.data

/-- ASCII uppercase of one char (Python `str.upper()` on the ASCII range). -/
def upperChar (c : Char) : Char :=
  if 'a' ≤ c && c ≤ 'z' then Char.ofNat (c.toNat - 32) else c

/-- ASCII lowercase of one char (Python `str.lower()` on the ASCII range). -/
def lowerChar (c : Char) : Char :=
  if 'A' ≤ c && c ≤ 'Z' then Char.ofNat (c.toNat + 32) else c

/-- Python `str.upper()` (ASCII). -/
def pyUpper (s : String) : String := ⟨s.data.map upperChar⟩

/-- Python `str.lower()` (ASCII). -/
def pyLower (s : String) : String := ⟨s.data.map lowerChar⟩

/-- Split a char list at every occurrence of `c` (Python `str.split(c)`:
never returns an empty list). -/
def splitOnChar (c : Char) : List Char → List (List Char)
  | [] => [[]]
  | d :: t =>
    let r := splitOnChar c t
    if d = c then [] :: r
    else match r with
      | [] => [[d]]
      | h :: rest => (d :: h) :: rest

/-- Python `s.split('\n')`. -/
def pySplitLines (s : String) : List String :=
  (splitOnChar '\n' s.data).map String.mk

/-- Python `'\n'.join(lines)`. -/
def joinLines (lines : List String) : String :=
  ⟨(lines.map String.data).intersperse ['\n'] |>.flatten⟩

/-- Python `s.split('/')`, as strings. -/
def pySplitSlash (s : String) : List String :=
  (splitOnChar '/' s.data).map String.mk

/-- Python `s.replace(pat, repl)` for nonempty `pat`: leftmost,
non-overlapping.  The fuel argument (instantiated with the list length,
which bounds the number of steps) makes the recursion structural, so
that concrete instances compute by kernel reduction. -/
def replaceGo (pat repl : List Char) : Nat → List Char → List Char
  | _, [] => []
  | 0, l => l
  | fuel + 1, c :: t =>
    if pat.isEmpty then c :: t
    else if pat.isPrefixOf (c :: t) then
      repl ++ replaceGo pat repl fuel ((c :: t).drop pat.length)
    else
      c :: replaceGo pat repl fuel t

/-- Python `s.replace(pat, repl)`. The source only calls it with the
nonempty pattern `"scaling-book/"`. -/
def pyReplace (s pat repl : String) : String :=
  ⟨replaceGo pat.data repl.data s.data.length s.data⟩

/-! ## Decimal digits and the placeholder token format -/

/-- Decimal digit char. -/
def digitChar (n : Nat) : Char := Char.ofNat (48 + n)

/-- Decimal digits, fuelled so the recursion is structural (the fuel
bounds the digit count; it is instantiated with the number itself). -/
def natDigitsGo : Nat → Nat → List Char
  | 0, n => [digitChar n]
  | fuel + 1, n =>
    if n < 10 then [digitChar n]
    else natDigitsGo fuel (n / 10) ++ [digitChar (n % 10)]

/-- Decimal digits of a natural number, most significant first
(what Python's `format(i, 'd')` produces). -/
def natDigits (n : Nat) : List Char := natDigitsGo n n

/-- Zero-pad to width 3 (Python `f"{i:03d}"`). -/
def pad3 (l : List Char) : List Char :=
  List.replicate (3 - l.length) '0' ++ l

/-- The placeholder token `MATH_PLACEHOLDER_` + zero-padded index
(`f"MATH_PLACEHOLDER_{i:03d}"`, translator.py line 188). -/
def mathToken (i : Nat) : String :=
  ⟨"MATH_PLACEHOLDER_".data ++ pad3 (natDigits i)⟩

/-- Numeric value of a digit list (left inverse used to prove `mathToken`
injective). -/
def digitsVal (l : List Char) : Nat :=
  l.foldl (fun a c => 10 * a + (c.toNat - 48)) 0

/-! ## The document model

A parsed HTML document (BeautifulSoup object) is a `Forest`; every
BeautifulSoup node is a `Node`:

* `text s`    — a `NavigableString` with content `s`;
* `comment s` — a `Comment` (rendered `<!--s-->`, `str()` gives `s`);
* `doctype s` — a `Doctype`; `html.parser` stores the declaration body
  (e.g. `"DOCTYPE html"`), renders it as `<!s>` followed by a newline, and
  `str()` of the node gives the body `s` only;
* `raw s`     — a `BeautifulSoup` object inserted into a tree (as
  `header_info_adder.py` does); it renders as its markup `s` and is opaque
  to searches started outside it (the source never searches such a tree
  again before rendering it);
* `elem tag attrs children` — a `Tag`; attribute values are flat strings
  (multi-valued attributes are modelled space-joined, matching how
  `extract_html_parts` renders them). -/

mutual
inductive Node where
  | text (s : String)
  | comment (s : String)
  | doctype (s : String)
  | raw (s : String)
  | elem (tag : String) (attrs : List (String × String)) (children : Forest)

inductive Forest where
  | nil
  | cons (hd : Node) (tl : Forest)
end

deriving instance DecidableEq for Node
deriving instance DecidableEq for Forest

/-- Build a `Forest` from a list of nodes (convenience for examples). -/
def forestOf : List Node → Forest
  | [] => .nil
  | n :: t => .cons n (forestOf t)

/-- First-match association-list lookup: Python `attrs.get(k)` /
`k in attrs` on a tag's attribute dict. -/
def aget : List (String × String) → String → Option String
  | [], _ => none
  | (k, v) :: t, q => if q = k then some v else aget t q

/-- Setting `tag[k] = v`: replace the value of the first binding of `k`,
or append the binding if `k` is absent. -/
def aset : List (String × String) → String → String → List (String × String)
  | [], q, v => [(q, v)]
  | (k, w) :: t, q, v => if q = k then (k, v) :: t else (k, w) :: aset t q v

/-- Render an attribute list the way both BeautifulSoup and
`extract_html_parts` (translator.py lines 130-132) do:
`' k1="v1" k2="v2"'` (empty for no attributes). -/
def renderAttrs : List (String × String) → String
  | [] => ""
  | (k, v) :: t => " " ++ k ++ "=\"" ++ v ++ "\"" ++ renderAttrs t

mutual
/-- `str(node)`: serialization of one node (non-escaping, see header). -/
def renderN : Node → String
  | .text s => s
  | .comment s => "<!--" ++ s ++ "-->"
  | .doctype s => "<!" ++ s ++ ">" ++ "\n"
  | .raw s => s
  | .elem tag attrs children =>
    "<" ++ tag ++ renderAttrs attrs ++ ">" ++ renderF children ++ "</" ++ tag ++ ">"

/-- `str(soup)`: serialization of a forest. -/
def renderF : Forest → String
  | .nil => ""
  | .cons n t => renderN n ++ renderF t
end

/-- `str(item)` as used in the doctype scan of `extract_html_parts`:
for a `NavigableString` subclass this is the stored content, not the
rendered markup. For elements it coincides with `renderN`. -/
def strRepr : Node → String
  | .text s => s
  | .comment s => s
  | .doctype s => s
  | .raw s => s
  | .elem tag attrs children => renderN (.elem tag attrs children)

mutual
/-- `tag.get_text()`: concatenation of all `NavigableString` descendants
(BeautifulSoup's default includes comment text). -/
def getTextN : Node → String
  | .text s => s
  | .comment s => s
  | .doctype s => s
  | .raw _ => ""
  | .elem _ _ children => getTextF children

def getTextF : Forest → String
  | .nil => ""
  | .cons n t => getTextN n ++ getTextF t
end

mutual
/-- `soup.find(tag)`: first element with the given name, in document
(pre-)order, descending into children. -/
def findElemN (tg : String) : Node → Option Node
  | .elem t a c => if t = tg then some (.elem t a c) else findElemF tg c
  | _ => none

def findElemF (tg : String) : Forest → Option Node
  | .nil => none
  | .cons n f =>
    match findElemN tg n with
    | some r => some r
    | none => findElemF tg f
end

mutual
/-- `soup.find('meta', attrs={'name': 'description'})`. -/
def findMetaDescN : Node → Option Node
  | .elem t a c =>
    if t = "meta" ∧ aget a "name" = some "description" then some (.elem t a c)
    else findMetaDescF c
  | _ => none

def findMetaDescF : Forest → Option Node
  | .nil => none
  | .cons n f =>
    match findMetaDescN n with
    | some r => some r
    | none => findMetaDescF f
end

mutual
/-- Remove every comment node (`comment.extract()` loop,
translator.py lines 179-180). -/
def removeCommentsN : Node → Option Node
  | .comment _ => none
  | .elem t a c => some (.elem t a (removeCommentsF c))
  | n => some n

def removeCommentsF : Forest → Forest
  | .nil => .nil
  | .cons n f =>
    match removeCommentsN n with
    | some n' => .cons n' (removeCommentsF f)
    | none => removeCommentsF f
end

mutual
/-- `soup.find_all('mjx-container')` in document order, including
containers nested inside other containers. -/
def containersN : Node → List Node
  | .elem t a c =>
    if t = "mjx-container" then .elem t a c :: containersF c else containersF c
  | _ => []

def containersF : Forest → List Node
  | .nil => []
  | .cons n f => containersN n ++ containersF f
end

mutual
/-- All comments of a forest, in document order (used to state that
shielding removes every comment). -/
def commentsN : Node → List String
  | .comment s => [s]
  | .elem _ _ c => commentsF c
  | _ => []

def commentsF : Forest → List String
  | .nil => []
  | .cons n f => commentsN n ++ commentsF f
end

/-- Does a node match `soup.find_all('span', attrs={'data-math-placeholder': True})`? -/
def isPhSpan : Node → Bool
  | .elem t a _ => t = "span" && (aget a "data-math-placeholder").isSome
  | _ => false

mutual
/-- The placeholder spans of a forest, in document order, as
(token, visible text) pairs. -/
def phSpansN : Node → List (String × String)
  | .elem t a c =>
    match aget a "data-math-placeholder" with
    | some tok => if t = "span" then (tok, getTextF c) :: phSpansF c else phSpansF c
    | none => phSpansF c
  | _ => []

def phSpansF : Forest → List (String × String)
  | .nil => []
  | .cons n f => phSpansN n ++ phSpansF f
end

/-! ## `translator.py` — Content Shield -/

/-- The placeholder element created at translator.py lines 192-193:
`<span data-math-placeholder="TOKEN">TOKEN</span>`. -/
def phSpanNode (tok : String) : Node :=
  .elem "span" [("data-math-placeholder", tok)] (.cons (.text tok) .nil)

mutual
/-- Replacement phase of `_clean_body_for_translation`, on a
comment-free forest: every container that is attached to the tree (i.e.
not nested inside another container) is replaced by its placeholder span.
The index is threaded in `find_all` document order, so a container's
nested containers consume the indices between its own and the next
sibling's (their `replace_with` happens on the detached subtree and does
not change the attached tree). -/
def shieldN : Node → Nat → Node × Nat
  | .elem t a c, i =>
    if t = "mjx-container" then
      (phSpanNode (mathToken i), i + 1 + (containersF c).length)
    else
      let r := shieldF c i
      (.elem t a r.1, r.2)
  | n, i => (n, i)

def shieldF : Forest → Nat → Forest × Nat
  | .nil, i => (.nil, i)
  | .cons n f, i =>
    let r := shieldN n i
    let s := shieldF f r.2
    (.cons r.1 s.1, s.2)
end

mutual
/-- The `math_content_store` entries produced by the loop at
translator.py lines 187-195: in `find_all` document order, token `i`
maps to the `i`-th container as it stood when `str(container)` was
taken — i.e. the (comment-stripped) original subtree, since each
container's string is recorded before any later container is touched. -/
def entriesN : Node → Nat → List (String × Node)
  | .elem t a c, i =>
    if t = "mjx-container" then (mathToken i, .elem t a c) :: entriesF c (i + 1)
    else entriesF c i
  | _, _ => []

def entriesF : Forest → Nat → List (String × Node)
  | .nil, _ => []
  | .cons n f, i => entriesN n i ++ entriesF f (i + (containersN n).length)
end

/-- `HTMLTranslator._clean_body_for_translation` (translator.py lines
165-199): remove every comment, then shield the math containers,
returning the shielded body and the repopulated `math_content_store`
(the store was cleared first; its keys are fresh, so it is an
association list looked up by first match). -/
def clean_body_for_translation (f : Forest) : Forest × List (String × Node) :=
  let g := removeCommentsF f
  ((shieldF g 0).1, entriesF g 0)

/-- Lookup in `math_content_store` (`placeholder_key in store` /
`store[placeholder_key]`). -/
def lookupStore : List (String × Node) → String → Option Node
  | [], _ => none
  | (k, v) :: t, q => if q = k then some v else lookupStore t q

/-- `BeautifulSoup(original_math, ...).find('mjx-container')` where the
store holds the parsed form of the recorded markup. -/
def findContainer (v : Node) : Option Node :=
  findElemF "mjx-container" (.cons v .nil)

mutual
/-- Restoration loop of `_restore_math_content` (translator.py lines
271-285): each placeholder span whose token has a store entry whose
markup contains an `mjx-container` is replaced by that container
(the replacement subtree itself is not rescanned — the `find_all`
list was computed first); every other span is left in place, and its
descendants are still processed. -/
def restoreN (st : List (String × Node)) : Node → Node
  | .elem t a c =>
    if t = "span" then
      match aget a "data-math-placeholder" with
      | some tok =>
        match lookupStore st tok with
        | some v =>
          match findContainer v with
          | some cont => cont
          | none => .elem t a (restoreF st c)
        | none => .elem t a (restoreF st c)
      | none => .elem t a (restoreF st c)
    else .elem t a (restoreF st c)
  | n => n

def restoreF (st : List (String × Node)) : Forest → Forest
  | .nil => .nil
  | .cons n f => .cons (restoreN st n) (restoreF st f)
end

/-- `HTMLTranslator._restore_math_content` (translator.py lines 254-292):
with an empty store the translated body is returned unchanged
(line 265-266); otherwise every placeholder span is looked up and
restored as above. -/
def restore_math_content (st : List (String × Node)) (f : Forest) : Forest :=
  if st = [] then f else restoreF st f

/-! ## `translator.py` — Document Decomposer (`extract_html_parts`) -/

/-- The decomposition record (`HTMLParts`, translator.py lines 34-41).
`head_content`/`body_content` are stored by the source as `str(tag)` and
re-parsed downstream; here they are the tags themselves. -/
structure HTMLParts where
  head_content : Node
  body_content : Node
  original_title : String
  original_description : String
  html_attrs : String
  doctype : String
deriving DecidableEq

/-- The doctype scan of `extract_html_parts` (translator.py lines
118-124): over the top-level items only, the first non-element whose
`str()` (its stored content), stripped and uppercased, starts with
`<!DOCTYPE` is taken (note `html.parser` stores a parsed declaration's
body without the `<!`/`>`, so a `Doctype` node itself never matches). -/
def findDoctypeStr : Forest → Option String
  | .nil => none
  | .cons n f =>
    match n with
    | .elem _ _ _ => findDoctypeStr f
    | n' =>
      let d := pyStrip (strRepr n')
      if pyStartswith (pyUpper d) "<!DOCTYPE" then some d else findDoctypeStr f

/-- `HTMLTranslator.extract_html_parts` (translator.py lines 103-163). -/
def extract_html_parts (doc : Forest) : HTMLParts :=
  let doctype := (findDoctypeStr doc).getD "<!DOCTYPE html>"
  let html_attrs :=
    match findElemF "html" doc with
    | some (.elem _ a _) => renderAttrs a
    | _ => ""
  let head_content := (findElemF "head" doc).getD (.elem "head" [] .nil)
  let body_content := (findElemF "body" doc).getD (.elem "body" [] .nil)
  let original_title :=
    match findElemF "title" doc with
    | some t => getTextN t
    | none => ""
  let original_description :=
    match findMetaDescF doc with
    | some (.elem _ a _) => (aget a "content").getD ""
    | _ => ""
  ⟨head_content, body_content, original_title, original_description, html_attrs, doctype⟩

/-! ## `translator.py` — Reassembler -/

mutual
/-- `title_tag.string = translated_title` on the first `<title>` found;
`none` when there is no title element. -/
def setTitleN (tt : String) : Node → Option Node
  | .elem t a c =>
    if t = "title" then some (.elem t a (.cons (.text tt) .nil))
    else
      match setTitleF tt c with
      | some c' => some (.elem t a c')
      | none => none
  | _ => none

def setTitleF (tt : String) : Forest → Option Forest
  | .nil => none
  | .cons n f =>
    match setTitleN tt n with
    | some n' => some (.cons n' f)
    | none =>
      match setTitleF tt f with
      | some f' => some (.cons n f')
      | none => none
end

mutual
/-- `head_soup.head.insert(0, nd)`: insert `nd` as first child of the
first `<head>`; `none` when there is no head element. -/
def insertFirstInHeadN (nd : Node) : Node → Option Node
  | .elem t a c =>
    if t = "head" then some (.elem t a (.cons nd c))
    else
      match insertFirstInHeadF nd c with
      | some c' => some (.elem t a c')
      | none => none
  | _ => none

def insertFirstInHeadF (nd : Node) : Forest → Option Forest
  | .nil => none
  | .cons n f =>
    match insertFirstInHeadN nd n with
    | some n' => some (.cons n' f)
    | none =>
      match insertFirstInHeadF nd f with
      | some f' => some (.cons n f')
      | none => none
end

mutual
/-- `head_soup.head.append(nd)`: append `nd` as last child of the first
`<head>`. -/
def appendInHeadN (nd : Node) : Node → Option Node
  | .elem t a c =>
    if t = "head" then some (.elem t a (appendChild nd c))
    else
      match appendInHeadF nd c with
      | some c' => some (.elem t a c')
      | none => none
  | _ => none

def appendInHeadF (nd : Node) : Forest → Option Forest
  | .nil => none
  | .cons n f =>
    match appendInHeadN nd n with
    | some n' => some (.cons n' f)
    | none =>
      match appendInHeadF nd f with
      | some f' => some (.cons n f')
      | none => none

def appendChild (nd : Node) : Forest → Forest
  | .nil => .cons nd .nil
  | .cons n f => .cons n (appendChild nd f)
end

mutual
/-- `desc_tag['content'] = translated_description` on the first
`<meta name="description">`. -/
def setDescN (td : String) : Node → Option Node
  | .elem t a c =>
    if t = "meta" ∧ aget a "name" = some "description" then
      some (.elem t (aset a "content" td) c)
    else
      match setDescF td c with
      | some c' => some (.elem t a c')
      | none => none
  | _ => none

def setDescF (td : String) : Forest → Option Forest
  | .nil => none
  | .cons n f =>
    match setDescN td n with
    | some n' => some (.cons n' f)
    | none =>
      match setDescF td f with
      | some f' => some (.cons n f')
      | none => none
end

/-- Title/description injection steps of `reassemble_html`
(translator.py lines 313-336), on the parsed head fragment. -/
def updateHeadForest (hf : Forest) (tt td : String) : Forest :=
  let h1 :=
    if tt ≠ "" then
      match setTitleF tt hf with
      | some hf' => hf'
      | none =>
        match insertFirstInHeadF (.elem "title" [] (.cons (.text tt) .nil)) hf with
        | some hf' => hf'
        | none => hf
    else hf
  if td ≠ "" then
    match setDescF td h1 with
    | some h' => h'
    | none =>
      match appendInHeadF (.elem "meta" [("name", "description"), ("content", td)] .nil) h1 with
      | some h' => h'
      | none => h1
  else h1

/-- One pass of `re.sub(r'lang="[^"]*"', 'lang="zh-CN"', s)`: leftmost
non-overlapping matches of `lang="` up to the next `"`.  Fuelled with
the list length so the recursion is structural. -/
def subLangGo : Nat → List Char → List Char
  | _, [] => []
  | 0, l => l
  | fuel + 1, c :: t =>
    if "lang=\"".data.isPrefixOf (c :: t) then
      if ((c :: t).drop 6).contains '"' then
        "lang=\"zh-CN\"".data ++
          subLangGo fuel ((((c :: t).drop 6).dropWhile (· ≠ '"')).drop 1)
      else c :: subLangGo fuel t
    else c :: subLangGo fuel t

/-- `re.sub(r'lang="[^"]*"', 'lang="zh-CN"', ·)` on a char list. -/
def subLangChars (l : List Char) : List Char := subLangGo l.length l

/-- The language-attribute forcing of `reassemble_html` (translator.py
lines 339-345). -/
def forceLang (a : String) : String :=
  if pyIn "lang=" a then ⟨subLangChars a.data⟩
  else if a ≠ "" then a ++ " lang=\"zh-CN\""
  else " lang=\"zh-CN\""

/-- First-line junk removal of `_fix_html_prefix` (translator.py lines
387-397): the first line is dropped exactly when, stripped, it is
`html` (case-insensitively) or is nonempty, is not a `<!DOCTYPE`
prefix, and does not start with `<`. -/
def keptLines : List String → List String
  | [] => []
  | l :: rest =>
    if pyLower (pyStrip l) = "html" then rest
    else if pyStrip l = "" then l :: rest
    else if pyStartswith (pyStrip l) "<!DOCTYPE" then l :: rest
    else if pyStartswith (pyStrip l) "<" then l :: rest
    else rest

/-- The doctype detection of `_fix_html_prefix` (translator.py line 400). -/
def hasDoctypeLine (l : String) : Bool :=
  pyStartswith (pyUpper (pyStrip l)) "<!DOCTYPE"

/-- `HTMLTranslator._fix_html_prefix` (translator.py lines 372-414). -/
def fix_html_prefix (s : String) : String :=
  let kept := keptLines (pySplitLines s)
  joinLines (if kept.any hasDoctypeLine then kept else "<!DOCTYPE html>" :: kept)

/-- `HTMLTranslator.reassemble_html` (translator.py lines 294-370),
with the `math_content_store` passed explicitly.  `updated_head` falls
back to the original head fragment when the (re-parsed) fragment has no
`<head>` tag (lines 351-355); the assembled string is the exact f-string
of lines 357-361 passed through `_fix_html_prefix`. -/
def reassemble_html (st : List (String × Node)) (parts : HTMLParts)
    (translated_body : Forest) (tt td : String) : String :=
  let bodyWithMath := restore_math_content st translated_body
  let headForest := updateHeadForest (.cons parts.head_content .nil) tt td
  let html_attrs_updated := forceLang parts.html_attrs
  let doctype := if parts.doctype ≠ "" then parts.doctype else "<!DOCTYPE html>"
  let updated_head :=
    match findElemF "head" headForest with
    | some h => renderN h
    | none => renderN parts.head_content
  fix_html_prefix (doctype ++ "\n<html" ++ html_attrs_updated ++ ">\n" ++
    updated_head ++ "\n" ++ renderF bodyWithMath ++ "\n</html>")

/-! ## `translator.py` — Translation Orchestrator (`translate_html`) -/

/-- `HTMLTranslator.translate_html` (translator.py lines 506-583).  The
two external calls are oracles: `metaResult` stands for the structured
metadata call (translator.py lines 237-248 — only attempted when title
or description is nonempty, line 216-217), `bodyResult` for the body
call `_translate_body_content` applied to the shielded body (`none`
covers a null or empty-html response, lines 486-500).  Returning `some`
is the model of writing the file (lines 571-579): the returned string is
the written content; `none` means no file is written. -/
def translate_html (doc : Forest) (metaResult : Option (String × String))
    (bodyResult : Option Forest) : Option String :=
  if doc = .nil then none
  else
    let parts := extract_html_parts doc
    let meta :=
      if parts.original_title = "" ∧ parts.original_description = "" then none
      else metaResult
    let translated_title := match meta with | some p => p.1 | none => ""
    let translated_description := match meta with | some p => p.2 | none => ""
    let cleaned := clean_body_for_translation (.cons parts.body_content .nil)
    match bodyResult with
    | none => none
    | some tb =>
      some (reassemble_html cleaned.2 parts tb translated_title translated_description)

/-- `TRANS_DIR` (config/settings.py: default `output/trans`). -/
def TRANS_DIR : String := "output/trans"

/-- Python positional-call discipline: a call with `given` positional
arguments to a function accepting between `minA` and `maxA` of them
raises `TypeError` (modelled as `Except.error`) before the body runs. -/
def callArity (minA maxA given : Nat) (v : α) : Except Unit α :=
  if minA ≤ given ∧ given ≤ maxA then .ok v else .error ()

/-- `HTMLTranslator.translate_html` accepts 1 or 2 positional arguments
after `self`: `(html_content, context="")` (translator.py line 506). -/
def translate_html_args : Nat × Nat := (1, 2)

/-- `translate_html_file` (translator.py lines 610-634): if the target
file exists and `force_translate` is false, return the target path
without translating; otherwise it calls
`translator.translate_html(html_content, f"文件: {input_file}", force_translate)`
— three positional arguments (line 628) — so the call raises `TypeError`,
the `except` at line 632 catches it, and `None` is returned.
`innerResult` is what the inner call would have returned were it legal;
the result never depends on it. -/
def translate_html_file (targetExists force_translate : Bool)
    (fileName : String) (innerResult : Option String) : Option String :=
  if targetExists && !force_translate then some (TRANS_DIR ++ "/" ++ fileName)
  else
    match callArity translate_html_args.1 translate_html_args.2 3 innerResult with
    | .ok r => r
    | .error _ => none

/-! ## `link_localizer.py` — URL Mapper and Link Rewriter -/

/-- Valid scheme characters after the first (urllib's `scheme_chars`). -/
def isSchemeChar (c : Char) : Bool :=
  c.isAlpha || c.isDigit || c = '+' || c = '-' || c = '.'

/-- A valid URL scheme: nonempty, letter first, scheme chars after. -/
def validScheme : List Char → Bool
  | [] => false
  | c :: t => c.isAlpha && t.all isSchemeChar

/-- `urlparse(url).path` for URLs made of scheme, `//`-authority, path,
`?query` and `#fragment` (see header notes): cut the fragment, cut the
query, strip a valid `scheme:`, and if the remainder starts with `//`
skip the authority (up to the next `/`). -/
def urlPathChars (l : List Char) : List Char :=
  let l1 := l.takeWhile (· ≠ '#')
  let l2 := l1.takeWhile (· ≠ '?')
  let afterScheme :=
    if l2.contains ':' ∧ validScheme (l2.takeWhile (· ≠ ':')) then
      (l2.dropWhile (· ≠ ':')).drop 1
    else l2
  if "//".data.isPrefixOf afterScheme then
    (afterScheme.drop 2).dropWhile (· ≠ '/')
  else afterScheme

/-- `urlparse(url).path` as a string. -/
def urlPath (url : String) : String := ⟨urlPathChars url.data⟩

/-- Last path segment plus `.html` (link_localizer.py lines 135-139):
`path.split('/')` is never empty, so the final `return` of
`_url_to_filename` is unreachable. -/
def lastSegPlusHtml (path : String) : String :=
  match (pySplitSlash path).reverse with
  | [] => "scaling-book.html"
  | last :: _ => last ++ ".html"

/-- `LinkLocalizer._url_to_filename` (link_localizer.py lines 110-143;
`HeaderInfoAdder._url_to_filename` is identical): strip slashes from the
URL path; empty or `scaling-book` maps to the root file; a path starting
with `scaling-book/` maps to the path with every occurrence of
`scaling-book/` removed (the whole remainder, not just the last
segment), `.html` appended; otherwise the last segment, `.html`
appended. -/
def url_to_filename (url : String) : String :=
  let path := stripSlashes (urlPath url)
  if path = "" ∨ path = "scaling-book" then "scaling-book.html"
  else
    if pyStartswith path "scaling-book/" then
      let page_name := pyReplace path "scaling-book/" ""
      if page_name ≠ "" then page_name ++ ".html"
      else lastSegPlusHtml path
    else lastSegPlusHtml path

/-- The configured source domain (link_localizer.py line 52). -/
def base_domain : String := "https://jax-ml.github.io/scaling-book"

/-- Python-dict lookup on an insertion list: the *last* write wins. -/
def dget : List (String × String) → String → Option String
  | [], _ => none
  | (k, v) :: t, q =>
    match dget t q with
    | some r => some r
    | none => if q = k then some v else none

/-- Manifest cleaning (link_localizer.py lines 77-81): strip each line,
skip empty lines and `#` comments. -/
def cleanManifest (manifest : List String) : List String :=
  (manifest.map pyStrip).filter
    (fun l => if l = "" then false else !pyStartswith l "#")

/-- One manifest line's contribution to the mapping (link_localizer.py
lines 83-93): register the line and its trailing-slash variant
(`rstrip('/')` when the line ends in `/`, `+ '/'` otherwise), but only
when the derived filename is among the existing output files. -/
def registerLine (existing : List String) (d : List (String × String))
    (line : String) : List (String × String) :=
  let fn := url_to_filename line
  if fn ∈ existing then
    let d1 := d ++ [(line, fn)]
    if endsWithSlash line then d1 ++ [(rstripSlashes line, fn)]
    else d1 ++ [(line ++ "/", fn)]
  else d

/-- `LinkLocalizer.build_url_mapping` (link_localizer.py lines 56-108),
as a function of the manifest lines and the set of existing `*.html`
filenames; the home-page special case (lines 96-98) registers the bare
domain and its slash variant when `scaling-book.html` exists. -/
def build_url_mapping (manifest existing : List String) : List (String × String) :=
  let base := (cleanManifest manifest).foldl (registerLine existing) []
  if "scaling-book.html" ∈ existing then
    base ++ [(base_domain, "scaling-book.html"), (base_domain ++ "/", "scaling-book.html")]
  else base

/-- `LinkLocalizer._is_local_link` (link_localizer.py lines 145-167). -/
def is_local_link (url : String) : Bool :=
  if url = "" then false
  else if pyStartswith url "#" then false
  else if pyStartswith url "mailto:" || pyStartswith url "tel:" || pyStartswith url "javascript:" then false
  else pyStartswith url base_domain

/-- The per-`href` rewrite decision of `_convert_links_in_html`
(link_localizer.py lines 184-204): domain-matching links are looked up
verbatim, then with trailing slashes stripped; `some` is the local
filename to substitute, `none` means the attribute is left unchanged. -/
def convertHref (m : List (String × String)) (href : String) : Option String :=
  if is_local_link href then
    match dget m href with
    | some f => some f
    | none => dget m (rstripSlashes href)
  else none

mutual
/-- Traversal of `_convert_links_in_html` over every tag carrying an
`href` attribute, returning (rewritten node, conversions, skipped):
`skipped` counts domain-matching hrefs with no mapping entry (line 204).
Tags with `src` attributes are only logged, never modified (lines
207-213). -/
def convertLinksN (m : List (String × String)) : Node → Node × Nat × Nat
  | .elem t a c =>
    let r := convertLinksF m c
    match aget a "href" with
    | some href =>
      if is_local_link href then
        match convertHref m href with
        | some f => (.elem t (aset a "href" f) r.1, r.2.1 + 1, r.2.2)
        | none => (.elem t a r.1, r.2.1, r.2.2 + 1)
      else (.elem t a r.1, r.2)
    | none => (.elem t a r.1, r.2)
  | n => (n, 0, 0)

def convertLinksF (m : List (String × String)) : Forest → Forest × Nat × Nat
  | .nil => (.nil, 0, 0)
  | .cons n f =>
    let rn := convertLinksN m n
    let rf := convertLinksF m f
    (.cons rn.1 rf.1, rn.2.1 + rf.2.1, rn.2.2 + rf.2.2)
end

/-- `LinkLocalizer._convert_links_in_html` (link_localizer.py lines
169-219): rewritten document, conversion count, skipped count. -/
def convert_links_in_html (m : List (String × String)) (f : Forest) :
    Forest × Nat × Nat :=
  convertLinksF m f

/-- `LinkLocalizer.process_html_file` (link_localizer.py lines 221-257):
the file is rewritten (`Bool` = written) only when at least one link was
converted; otherwise the content on disk stays the original. -/
def link_process_html_file (m : List (String × String)) (f : Forest) :
    Forest × Bool :=
  let r := convert_links_in_html m f
  if r.2.1 > 0 then (r.1, true) else (f, false)

/-! ## `header_info_adder.py` — Provenance Annotator -/

/-- `self.translator_name` (header_info_adder.py line 52). -/
def translator_name : String := "北极的树"

/-- `self.wechat_qr_url` (header_info_adder.py line 53). -/
def wechat_qr_url : String :=
  "https://wechat-account-1251781786.cos.ap-guangzhou.myqcloud.com/wechat_account.jpeg"

/-- The idempotence sentinel checked as a substring of the file content
(header_info_adder.py line 266). -/
def sentinelMarker : String := "translation-info"

/-- The f-string literal of `create_header_html` (header_info_adder.py
lines 146-199), before `.strip()`. -/
def headerRaw (original_url : String) : String :=
  "\n" ++
  "        <div class=\"translation-info base-grid\" style=\"margin-bottom: 20px;\">\n" ++
  "            <div style=\"grid-column: text;\n" ++
  "                       display: flex;\n" ++
  "                       align-items: center;\n" ++
  "                       justify-content: space-between;\n" ++
  "                       padding: 16px 0;\n" ++
  "                       border-bottom: 1px solid var(--global-text-color-light, rgba(0,0,0,0.15));\n" ++
  "                       font-size: 16px;\n" ++
  "                       line-height: 1.5;\n" ++
  "                       color: var(--global-text-color, currentColor);\">\n" ++
  "                <div style=\"display: flex;\n" ++
  "                           flex-direction: column;\n" ++
  "                           gap: 8px;\">\n" ++
  "                    <div>\n" ++
  "                        <span style=\"font-weight: 600; color: var(--global-text-color, currentColor);\">🔗 英文原文：</span>\n" ++
  "                        <a href=\"" ++
  original_url ++
  "\"\n" ++
  "                           target=\"_blank\"\n" ++
  "                           rel=\"noopener noreferrer\"\n" ++
  "                           style=\"color: var(--global-theme-color, #004276);\n" ++
  "                                  text-decoration: none;\n" ++
  "                                  margin-left: 4px;\"\n" ++
  "                           onmouseover=\"this.style.textDecoration=\x27underline\x27\"\n" ++
  "                           onmouseout=\"this.style.textDecoration=\x27none\x27\">\n" ++
  "                           " ++
  original_url ++
  "\n" ++
  "                        </a>\n" ++
  "                    </div>\n" ++
  "                    <div>\n" ++
  "                        <span style=\"font-weight: 600; color: var(--global-text-color, currentColor);\">✍️ 翻译：</span>\n" ++
  "                        <span style=\"margin-left: 4px; color: var(--global-text-color, currentColor);\">" ++
  translator_name ++
  "</span>\n" ++
  "                    </div>\n" ++
  "                </div>\n" ++
  "                <div style=\"flex-shrink: 0;\n" ++
  "                           display: flex;\n" ++
  "                           flex-direction: column;\n" ++
  "                           align-items: center;\n" ++
  "                           gap: 6px;\n" ++
  "                           margin-left: 20px;\">\n" ++
  "                    <img src=\"" ++
  wechat_qr_url ++
  "\"\n" ++
  "                         alt=\"微信二维码\"\n" ++
  "                         style=\"width: 80px;\n" ++
  "                                height: 80px;\n" ++
  "                                border-radius: 6px;\n" ++
  "                                opacity: 0.9;\"\n" ++
  "                         loading=\"lazy\">\n" ++
  "                    <span style=\"font-size: 12px;\n" ++
  "                                 color: var(--global-text-color-light, currentColor);\n" ++
  "                                 opacity: 0.8;\n" ++
  "                                 text-align: center;\">\n" ++
  "                        微信公众号\n" ++
  "                    </span>\n" ++
  "                </div>\n" ++
  "            </div>\n" ++
  "        </div>"

/-- `HeaderInfoAdder.create_header_html` (header_info_adder.py lines
136-201). -/
def create_header_html (original_url : String) : String :=
  pyStrip (headerRaw original_url)

/-- Strategy 1 of `find_insertion_point` (header_info_adder.py lines
215-218): `soup.find('div', class_='post distill')`, a div whose class
attribute is exactly `post distill`. -/
def isPostDistillStrict : Node → Bool
  | .elem t a _ => t = "div" && aget a "class" = some "post distill"
  | _ => false

/-- Strategy 2 (lines 221-224): a div whose class value contains both
`post` and `distill` (the callable matcher applied to the class text). -/
def isPostDistillLoose : Node → Bool
  | .elem t a _ =>
    t = "div" &&
      (match aget a "class" with
       | some c => pyIn "post" c && pyIn "distill" c
       | none => false)
  | _ => false

mutual
/-- `insertion_point.insert(0, header)` at the first node matching `p`
in document order (`none` when no node matches). -/
def insertFirstMatchN (p : Node → Bool) (hdr : Node) : Node → Option Node
  | .elem t a c =>
    if p (.elem t a c) then some (.elem t a (.cons hdr c))
    else
      match insertFirstMatchF p hdr c with
      | some c' => some (.elem t a c')
      | none => none
  | _ => none

def insertFirstMatchF (p : Node → Bool) (hdr : Node) : Forest → Option Forest
  | .nil => none
  | .cons n f =>
    match insertFirstMatchN p hdr n with
    | some n' => some (.cons n' f)
    | none =>
      match insertFirstMatchF p hdr f with
      | some f' => some (.cons n f')
      | none => none
end

/-- Result of searching a forest for the first `d-title` in document
order: not found, found as a direct child (the *owner* of the forest is
the parent and must do the insertion), or found deeper (insertion
already performed). -/
inductive DtRes where
  | notFound
  | foundHere
  | foundIn (f : Forest)
deriving DecidableEq

/-- Is this node a `d-title` element? -/
def isDTitle : Node → Bool
  | .elem t _ _ => t = "d-title"
  | _ => false

mutual
/-- Strategy 3 (lines 227-229): insert `hdr` as first child of the
parent of the first `d-title` element. -/
def dtInsertN (hdr : Node) : Node → Option Node
  | .elem t a c =>
    match dtInsertF hdr c with
    | .foundHere => some (.elem t a (.cons hdr c))
    | .foundIn c' => some (.elem t a c')
    | .notFound => none
  | _ => none

def dtInsertF (hdr : Node) : Forest → DtRes
  | .nil => .notFound
  | .cons n f =>
    if isDTitle n then .foundHere
    else
      match dtInsertN hdr n with
      | some n' => .foundIn (.cons n' f)
      | none =>
        match dtInsertF hdr f with
        | .foundHere => .foundHere
        | .foundIn f' => .foundIn (.cons n f')
        | .notFound => .notFound
end

/-- `find_insertion_point` (lines 203-237) combined with the insertion
step (lines 286-291): try the strict div match, then the loose one,
then the parent of `d-title` (when the `d-title` is a top-level node its
parent is the soup object itself, so the header becomes the first node
of the document). `none` models "no insertion point found". -/
def insertHeaderDoc (hdr : Node) (doc : Forest) : Option Forest :=
  match insertFirstMatchF isPostDistillStrict hdr doc with
  | some doc1 => some doc1
  | none =>
    match insertFirstMatchF isPostDistillLoose hdr doc with
    | some doc1 => some doc1
    | none =>
      match dtInsertF hdr doc with
      | .foundHere => some (.cons hdr doc)
      | .foundIn doc1 => some doc1
      | .notFound => none

/-- `HeaderInfoAdder.process_html_file` (header_info_adder.py lines
239-306) on one file: `mappedUrl` is
`self.file_url_mapping.get(file_path.name)` (`none` → skipped before
anything is read, lines 254-257); then the sentinel-substring check on
the file content (lines 266-269); then insertion-point search and
insertion of the parsed header markup (a `BeautifulSoup` object,
modelled by `Node.raw`).  The returned `Bool` is whether the file was
written back (mutated). -/
def header_process_html_file (mappedUrl : Option String) (doc : Forest) :
    Forest × Bool :=
  match mappedUrl with
  | none => (doc, false)
  | some url =>
    if pyIn sentinelMarker (renderF doc) then (doc, false)
    else
      match insertHeaderDoc (.raw (create_header_html url)) doc with
      | some doc1 => (doc1, true)
      | none => (doc, false)

/-- `HeaderInfoAdder.build_file_url_mapping` (header_info_adder.py lines
57-99): filename → manifest URL, restricted to existing files (the
last manifest line deriving a given existing filename wins). -/
def build_file_url_mapping (manifest existing : List String) : List (String × String) :=
  (cleanManifest manifest).foldl
    (fun d line =>
      let fn := url_to_filename line
      if fn ∈ existing then d ++ [(fn, line)] else d) []

/-! ## Statements of the claims, and inputs used to settle them -/

/-- No placeholder span of the body already carries a token that
shielding will assign (`MATH_PLACEHOLDER_i` for `i` below the container
count). -/
def freshTokens (b : Forest) : Bool :=
  (phSpansF b).all fun p =>
    (List.range (containersF b).length).all fun i => decide (p.1 ≠ mathToken i)

/-- The body contains no placeholder span at all. -/
def noPreSpans (b : Forest) : Bool := (phSpansF b).isEmpty

/-- No `mjx-container` is nested inside another. -/
def noNestedContainers (b : Forest) : Bool :=
  (containersF b).all fun c =>
    match c with
    | .elem _ _ k => (containersF k).isEmpty
    | _ => true

/-- Claim C1 as stated: for a body with `N` containers, shielding
replaces the `i`-th container (document order) by the span carrying
token `i` as attribute and text, records each container's *full
original* markup under its token (exactly `N` distinct entries), and
removes every comment; restoring the shielded body yields all `N`
original containers, unchanged and in the same relative order. -/
def C1AsStated (b : Forest) : Prop :=
  let n := (containersF b).length
  let r := clean_body_for_translation b
  phSpansF r.1 = (List.range n).map (fun i => (mathToken i, mathToken i)) ∧
  containersF r.1 = [] ∧
  r.2.map Prod.fst = (List.range n).map mathToken ∧
  (r.2.map Prod.fst).Nodup ∧
  r.2.map Prod.snd = containersF b ∧
  commentsF r.1 = [] ∧
  containersF (restore_math_content r.2 r.1) = containersF b

/-- A body on which C1 fails as stated: a pre-existing span already
carrying the first assigned token, and two containers — one with a
comment inside, one nested inside the other. -/
def c1Body : Forest :=
  forestOf
    [.elem "span" [("data-math-placeholder", "MATH_PLACEHOLDER_000")]
        (forestOf [.text "x"]),
     .elem "mjx-container" []
        (forestOf [.comment "c",
                   .elem "mjx-container" [] (forestOf [.text "B"]),
                   .text "E"])]

/-- A well-behaved body used to witness the amended C1: one comment, two
flat containers, no pre-existing placeholder spans. -/
def c1GoodBody : Forest :=
  forestOf
    [.text "a", .comment "note",
     .elem "mjx-container" [("class", "MathJax")] (forestOf [.text "E"]),
     .text "b",
     .elem "mjx-container" [] (forestOf [.text "F"])]

mutual
/-- No placeholder span nested inside another placeholder span. -/
def noNestedPhN : Node → Bool
  | .elem t a c =>
    if isPhSpan (.elem t a c) then (phSpansF c).isEmpty else noNestedPhF c
  | _ => true

def noNestedPhF : Forest → Bool
  | .nil => true
  | .cons n f => noNestedPhN n && noNestedPhF f
end

/-- The placeholder spans of `f` whose token has no store entry. -/
def unmatchedSpans (st : List (String × Node)) (f : Forest) :
    List (String × String) :=
  (phSpansF f).filter fun p => (lookupStore st p.1).isNone

/-- Claim C2 as stated (the mismatch-tolerance part): for every store
and every translated body, every unmatched placeholder span survives
restoration in place, with its token and text. -/
def C2AsStated : Prop :=
  ∀ (st : List (String × Node)) (f : Forest),
    (unmatchedSpans st f).Sublist (phSpansF (restore_math_content st f))

/-- Store and body on which C2 fails as stated: a matched span contains
an unmatched one, so the unmatched span vanishes with its replaced
ancestor. -/
def c2Store : List (String × Node) := [("T0", .elem "mjx-container" [] .nil)]

/-- See `c2Store`. -/
def c2Body : Forest :=
  forestOf
    [.elem "span" [("data-math-placeholder", "T0")]
        (forestOf [.elem "span" [("data-math-placeholder", "T1")]
            (forestOf [.text "T1"])])]

/-- The last non-empty path segment (claim C5's derivation rule). -/
def lastNonEmptySeg (path : String) : String :=
  match ((pySplitSlash path).filter fun s => decide (s ≠ "")).reverse with
  | [] => ""
  | seg :: _ => seg

/-- Claim C5's filename derivation as stated: strip slashes from the URL
path; empty or root segment maps to the root file; otherwise the *last
non-empty path segment* with `.html` appended. -/
def specFilename (url : String) : String :=
  let path := stripSlashes (urlPath url)
  if path = "" ∨ path = "scaling-book" then "scaling-book.html"
  else lastNonEmptySeg path ++ ".html"

/-- The trailing-slash-toggled variant of a manifest line
(link_localizer.py lines 90-93). -/
def slashVariant (line : String) : String :=
  if endsWithSlash line then rstripSlashes line else line ++ "/"

/-- Claim C5 as stated: the built mapping contains exactly the entries
derived per `specFilename`, gated on existence, with both the exact URL
and its slash-toggled variant as keys, plus the site root. -/
def C5AsStated (manifest existing : List String) : Prop :=
  ∀ k v, dget (build_url_mapping manifest existing) k = some v ↔
    ((∃ line ∈ cleanManifest manifest, specFilename line ∈ existing ∧
        v = specFilename line ∧ (k = line ∨ k = slashVariant line)) ∨
     ("scaling-book.html" ∈ existing ∧
        (k = base_domain ∨ k = base_domain ++ "/") ∧ v = "scaling-book.html"))

/-- Manifest URL on which C5 fails as stated: a two-segment path under
the root segment. -/
def c5Url : String := "https://jax-ml.github.io/scaling-book/part1/tpus"

/-- The corrected entry relation of `build_url_mapping`: as C5 says but
with the filename derived by `url_to_filename` (the code's replace-all
rule) instead of the claim's last-segment rule. -/
def mappingEntry (manifest existing : List String) (k v : String) : Prop :=
  (∃ line ∈ cleanManifest manifest, url_to_filename line ∈ existing ∧
      v = url_to_filename line ∧ (k = line ∨ k = slashVariant line)) ∨
  ("scaling-book.html" ∈ existing ∧
      (k = base_domain ∨ k = base_domain ++ "/") ∧ v = "scaling-book.html")

/-- Reassembly of a decomposed document with the body unchanged and no
translated title/description (the round trip of claim C6), with an
empty placeholder store. -/
def reassembleUnchanged (D : Forest) : String :=
  reassemble_html [] (extract_html_parts D)
    (.cons (extract_html_parts D).body_content .nil) "" ""

/-- Erase every line that carries a document-type declaration. -/
def eraseDoctypeLines (s : String) : String :=
  joinLines ((pySplitLines s).filter fun l => !hasDoctypeLine l)

/-- Erase every occurrence of ` lang="[^"]*"` (the aspect claim C6
abstracts from), fuelled with the list length. -/
def eraseLangGo : Nat → List Char → List Char
  | _, [] => []
  | 0, l => l
  | fuel + 1, c :: t =>
    if " lang=\"".data.isPrefixOf (c :: t) then
      if ((c :: t).drop 7).contains '"' then
        eraseLangGo fuel ((((c :: t).drop 7).dropWhile (· ≠ '"')).drop 1)
      else c :: eraseLangGo fuel t
    else c :: eraseLangGo fuel t

/-- Erase every ` lang="[^"]*"` occurrence from a char list. -/
def eraseLangChars (l : List Char) : List Char := eraseLangGo l.length l

/-- String form of `eraseLangChars`. -/
def eraseLangAttrs (s : String) : String := ⟨eraseLangChars s.data⟩

/-- Claim C6 as stated: decompose-and-reassemble with everything
unchanged yields text equal to the original document up to a normalized
document-type declaration and the forced `lang` attribute — i.e. after
erasing doctype lines and `lang` attributes from both sides, the texts
agree. -/
def C6AsStated (D : Forest) : Prop :=
  eraseLangAttrs (eraseDoctypeLines (reassembleUnchanged D)) =
    eraseLangAttrs (eraseDoctypeLines (renderF D))

/-- A document on which C6 fails as stated: no newlines between the
structural tags, so the reassembler's fixed separators change the text
beyond doctype and `lang`. -/
def c6Doc : Forest :=
  forestOf
    [.elem "html" []
        (forestOf [.elem "head" [] .nil, .elem "body" [] (forestOf [.text "B"])])]

/-- The canonical serialized shape the reassembler emits (and the shape
on which the C6 round trip is exact): an optional doctype, then an
`html` element whose children are the head and body separated by
newline text nodes. -/
def canonDoc (useDt : Bool) (dt : String) (attrs : List (String × String))
    (head body : Node) : Forest :=
  let html := Node.elem "html" attrs
    (forestOf [.text "\n", head, .text "\n", body, .text "\n"])
  if useDt then forestOf [.doctype dt, html] else forestOf [html]

/-- Claim C8 as stated: the sentinel check blocks mutation, and the
sentinel check *alone* determines whether insertion occurs. -/
def C8AsStated (u : Option String) (doc : Forest) : Prop :=
  (pyIn sentinelMarker (renderF doc) = true →
    header_process_html_file u doc = (doc, false)) ∧
  ((header_process_html_file u doc).2 = true ↔
    pyIn sentinelMarker (renderF doc) = false)

/-- A document on which C8 fails as stated: no sentinel, but also no
insertion point (no `post distill` div and no `d-title`). -/
def c8Doc : Forest :=
  forestOf
    [.elem "html" []
        (forestOf [.elem "body" [] (forestOf [.elem "p" [] (forestOf [.text "x"])])])]

/-- A document with an insertion point, used to witness the amended C8. -/
def c8GoodDoc : Forest :=
  forestOf
    [.elem "html" []
        (forestOf [.elem "body" []
            (forestOf [.elem "div" [("class", "post distill")]
                (forestOf [.text "X"])])])]

/-- The first-line removal condition of claim C9: nonempty after
stripping and not starting with `<`. -/
def c9Removes (l : String) : Bool :=
  !(pyStrip l = "") && !pyStartswith (pyStrip l) "<"

/-- The line list after claim C9's first-line removal. -/
def c9Kept (s : String) : List String :=
  match pySplitLines s with
  | [] => []
  | l :: rest => if c9Removes l then rest else l :: rest

/-- What `_fix_html_prefix` should produce according to claim C9, with
the doctype-presence test taken literally (`startswith('<!DOCTYPE')` on
the raw line). -/
def c9Expected (s : String) : String :=
  joinLines (if (c9Kept s).any (fun l => pyStartswith l "<!DOCTYPE") then c9Kept s
             else "<!DOCTYPE html>" :: c9Kept s)

/-- Claim C9 as stated: the removal/insertion behaviour with the literal
`<!DOCTYPE` test, plus "the result always contains a line starting with
`<!DOCTYPE`". -/
def C9AsStated (s : String) : Prop :=
  fix_html_prefix s = c9Expected s ∧
  ∃ line ∈ pySplitLines ( fix_html_prefix s), pyStartswith line "<!DOCTYPE"

/-- What `_fix_html_prefix` actually produces: same shape, but doctype
presence is detected case-insensitively on the stripped line. -/
def c9Amended (s : String) : String :=
  joinLines (if (c9Kept s).any hasDoctypeLine then c9Kept s
             else "<!DOCTYPE html>" :: c9Kept s)

mutual
/-- The `href` attribute values of a forest, in document order. -/
def hrefsN : Node → List String
  | .elem _ a c =>
    (match aget a "href" with | some h => [h] | none => []) ++ hrefsF c
  | _ => []

def hrefsF : Forest → List String
  | .nil => []
  | .cons n f => hrefsN n ++ hrefsF f
end

mutual
/-- The `src` attribute values of a forest, in document order. -/
def srcsN : Node → List String
  | .elem _ a c =>
    (match aget a "src" with | some h => [h] | none => []) ++ srcsF c
  | _ => []

def srcsF : Forest → List String
  | .nil => []
  | .cons n f => srcsN n ++ srcsF f
end

/-- What one `href` value becomes under the Link Rewriter. -/
def rewriteHref (m : List (String × String)) (h : String) : String :=
  match convertHref m h with
  | some f => f
  | none => h

/-- Comment removal applied to one container (the containers recorded in
the store are the original containers with their comments stripped). -/
def rcCont : Node → Node
  | .elem t a k => .elem t a (removeCommentsF k)
  | n => n

/-! ## General lemmas -/

theorem splitOnChar_ne_nil (c : Char) (l : List Char) : splitOnChar c l ≠ [] := by
  cases l with
  | nil => simp [splitOnChar]
  | cons d t =>
    rw [splitOnChar]
    by_cases h : d = c
    · simp [h]
    · simp only [h, if_false]
      cases splitOnChar c t with
      | nil => simp
      | cons a r => simp

theorem pySplitLines_ne_nil (s : String) : pySplitLines s ≠ [] := by
  unfold pySplitLines
  intro h
  exact splitOnChar_ne_nil '\n' s.data (by simpa using h)

theorem intercalate_splitOnChar (c : Char) (l : List Char) :
    ((splitOnChar c l).intersperse [c]).flatten = l := by
  induction l with
  | nil => simp [splitOnChar]
  | cons d t ih =>
    rw [splitOnChar]
    by_cases h : d = c
    · subst h
      simp only [if_pos rfl]
      have hne := splitOnChar_ne_nil d t
      cases hsp : splitOnChar d t with
      | nil => exact absurd hsp hne
      | cons a r =>
        rw [hsp] at ih
        simpa [List.intersperse] using ih
    · simp only [h, if_false]
      have hne := splitOnChar_ne_nil c t
      cases hsp : splitOnChar c t with
      | nil => exact absurd hsp hne
      | cons a r =>
        rw [hsp] at ih
        cases r with
        | nil => simpa [List.intersperse] using ih
        | cons b r2 => simpa [List.intersperse] using ih

/-- `'\n'.join` undoes `split('\n')`. -/
theorem joinLines_pySplitLines (s : String) : joinLines (pySplitLines s) = s := by
  unfold joinLines pySplitLines
  cases s with
  | mk data =>
    congr 1
    rw [List.map_map, show (String.data ∘ String.mk) = id from funext fun _ => rfl,
      List.map_id]
    exact intercalate_splitOnChar '\n' data

theorem splitOnChar_no_sep (c : Char) (l : List Char) :
    ∀ p ∈ splitOnChar c l, c ∉ p := by
  induction l with
  | nil => simp [splitOnChar]
  | cons d t ih =>
    rw [splitOnChar]
    by_cases h : d = c
    · simpa [h] using ih
    · simp only [h, if_false]
      cases hsp : splitOnChar c t with
      | nil => simp [Ne.symm h]
      | cons a r =>
        intro p hp
        rw [hsp] at ih
        rcases List.mem_cons.mp hp with hpa | hpr
        · subst hpa
          intro hmem
          rcases List.mem_cons.mp hmem with h1 | h2
          · exact h h1.symm
          · exact ih a (List.mem_cons_self a r) h2
        · exact ih p (List.mem_cons_of_mem a hpr)

theorem splitOnChar_intercalate (c : Char) (ps : List (List Char)) (hne : ps ≠ [])
    (hfree : ∀ p ∈ ps, c ∉ p) :
    splitOnChar c ((ps.intersperse [c]).flatten) = ps := by
  induction ps with
  | nil => exact absurd rfl hne
  | cons p rest ih =>
    cases rest with
    | nil =>
      simp only [List.intersperse, List.flatten, List.append_nil]
      have hp := hfree p (List.mem_cons_self p [])
      clear ih hne hfree
      induction p with
      | nil => simp [splitOnChar]
      | cons a q ihq =>
        rw [splitOnChar]
        have ha : a ≠ c := fun h => hp (h ▸ List.mem_cons_self a q)
        have hq : c ∉ q := fun h => hp (List.mem_cons_of_mem a h)
        rw [ihq hq]
        simp [ha]
    | cons p2 rest2 =>
      have hrec := ih (by simp)
        (fun x hx => hfree x (List.mem_cons_of_mem p hx))
      have hflat : ((p :: p2 :: rest2).intersperse [c]).flatten =
          p ++ c :: ((p2 :: rest2).intersperse [c]).flatten := by
        simp [List.intersperse]
      rw [hflat]
      have hp := hfree p (List.mem_cons_self p _)
      clear ih hne hfree hflat
      induction p with
      | nil =>
        rw [List.nil_append, splitOnChar]
        simp [hrec]
      | cons a q ihq =>
        have ha : a ≠ c := fun h => hp (h ▸ List.mem_cons_self a q)
        have hq : c ∉ q := fun h => hp (List.mem_cons_of_mem a h)
        rw [List.cons_append, splitOnChar, ihq hq]
        simp [ha]

/-- Monotonicity of the substring test (append on the right). -/
theorem infixChars_append_right (p l m : List Char) (h : infixChars p l = true) :
    infixChars p (l ++ m) = true := by
  induction l with
  | nil =>
    rw [infixChars] at h
    have hp : p = [] := by
      cases p with
      | nil => rfl
      | cons a q => simp [List.isPrefixOf] at h
    subst hp
    cases m with
    | nil => simp [infixChars, List.isPrefixOf]
    | cons b t => simp [infixChars, List.isPrefixOf]
  | cons a t ih =>
    rw [infixChars] at h
    rw [List.cons_append, infixChars]
    rcases Bool.or_eq_true_iff.mp h with h1 | h2
    · have hpre := List.isPrefixOf_iff_prefix.mp h1
      have h3 : p <+: a :: (t ++ m) := hpre.trans ⟨m, by simp⟩
      have h4 : p.isPrefixOf (a :: (t ++ m)) = true := List.isPrefixOf_iff_prefix.mpr h3
      simp [h4]
    · simp [ih h2]

/-- Monotonicity of the substring test (append on the left). -/
theorem infixChars_append_left (p l m : List Char) (h : infixChars p m = true) :
    infixChars p (l ++ m) = true := by
  induction l with
  | nil => simpa using h
  | cons a t ih =>
    rw [List.cons_append, infixChars]
    simp [ih]

/-! ## C10 — decomposition never fails and degrades to defaults -/

/-- C10: for every input document, `extract_html_parts` returns (it is a
total function of the parsed document), and absent parts degrade to
defaults: doctype `<!DOCTYPE html>` when no declaration is found, empty
root-attribute string when there is no `html` tag, `<head></head>` /
`<body></body>` when head/body are absent, and empty title/description
when no `<title>` or `<meta name="description">` exists. -/
theorem C10_extract_defaults (doc : Forest) :
    (findDoctypeStr doc = none → (extract_html_parts doc).doctype = "<!DOCTYPE html>") ∧
    (findElemF "html" doc = none → (extract_html_parts doc).html_attrs = "") ∧
    (findElemF "head" doc = none →
      (extract_html_parts doc).head_content = .elem "head" [] .nil) ∧
    (findElemF "body" doc = none →
      (extract_html_parts doc).body_content = .elem "body" [] .nil) ∧
    (findElemF "title" doc = none → (extract_html_parts doc).original_title = "") ∧
    (findMetaDescF doc = none → (extract_html_parts doc).original_description = "") := by
  refine ⟨fun h => ?_, fun h => ?_, fun h => ?_, fun h => ?_, fun h => ?_, fun h => ?_⟩ <;>
    simp [extract_html_parts, h]

/-- Witness for C10 at the empty document. -/
theorem C10_extract_defaults_witness :
    (extract_html_parts .nil).doctype = "<!DOCTYPE html>" ∧
    (extract_html_parts .nil).html_attrs = "" ∧
    (extract_html_parts .nil).head_content = .elem "head" [] .nil ∧
    (extract_html_parts .nil).body_content = .elem "body" [] .nil ∧
    (extract_html_parts .nil).original_title = "" ∧
    (extract_html_parts .nil).original_description = "" := by
  have h := C10_extract_defaults .nil
  exact ⟨h.1 rfl, h.2.1 rfl, h.2.2.1 rfl, h.2.2.2.1 rfl, h.2.2.2.2.1 rfl, h.2.2.2.2.2 rfl⟩

/-! ## C9 — `_fix_html_prefix` -/

theorem pyLower_ne_startLt (l : String) (h : pyLower (pyStrip l) = "html") :
    pyStrip l ≠ "" ∧ pyStartswith (pyStrip l) "<" = false := by
  have hdata : (pyStrip l).data.map lowerChar = "html".data := congrArg String.data h
  cases hx : (pyStrip l).data with
  | nil => rw [hx] at hdata; simp at hdata
  | cons c1 r =>
    rw [hx] at hdata
    simp only [List.map_cons] at hdata
    have hc1 : lowerChar c1 = 'h' := by
      have := congrArg (fun l => l.headD ' ') hdata
      simpa using this
    constructor
    · intro he
      have : (pyStrip l).data = [] := by rw [he]
      rw [hx] at this; simp at this
    · show ("<".data.isPrefixOf (pyStrip l).data) = false
      rw [hx]
      show (('<' == c1) && ([].isPrefixOf r)) = false
      have : c1 ≠ '<' := by
        intro hc
        rw [hc] at hc1
        exact absurd hc1 (by decide)
      simp [Ne.symm this]

theorem pyStartswith_doctype_lt (l : String)
    (h : pyStartswith (pyStrip l) "<!DOCTYPE" = true) :
    pyStartswith (pyStrip l) "<" = true := by
  unfold pyStartswith at *
  have hpre := List.isPrefixOf_iff_prefix.mp h
  exact List.isPrefixOf_iff_prefix.mpr
    ((show "<".data <+: "<!DOCTYPE".data by decide).trans hpre)

/-- The faithful first-line filter equals the claim's description:
the first line is removed exactly when it is nonempty after stripping
and does not start with `<`. -/
theorem keptLines_eq (ls : List String) :
    keptLines ls = match ls with
      | [] => []
      | l :: rest => if c9Removes l then rest else l :: rest := by
  cases ls with
  | nil => rfl
  | cons l rest =>
    rw [keptLines]
    by_cases h1 : pyLower (pyStrip l) = "html"
    · have := pyLower_ne_startLt l h1
      have hc : c9Removes l = true := by
        unfold c9Removes
        simp [this.1, this.2]
      simp [h1, hc]
    · by_cases h2 : pyStrip l = ""
      · have hc : c9Removes l = false := by unfold c9Removes; simp [h2]
        simp [h2, hc, show ¬ (pyLower "" = "html") by decide]
      · by_cases h3 : pyStartswith (pyStrip l) "<!DOCTYPE" = true
        · have h4 := pyStartswith_doctype_lt l h3
          have hc : c9Removes l = false := by unfold c9Removes; simp [h4]
          simp [h1, h2, h3, hc]
        · by_cases h4 : pyStartswith (pyStrip l) "<" = true
          · have hc : c9Removes l = false := by unfold c9Removes; simp [h4]
            simp [h1, h2, h3, h4, hc]
          · have h4f : pyStartswith (pyStrip l) "<" = false := by
              cases hb : pyStartswith (pyStrip l) "<" with
              | true => exact absurd hb h4
              | false => rfl
            have hc : c9Removes l = true := by
              unfold c9Removes
              simp [h2, h4f]
            simp [h1, h2, h3, h4f, hc]

theorem pySplitLines_no_newline (s : String) :
    ∀ l ∈ pySplitLines s, '\n' ∉ l.data := by
  intro l hl
  unfold pySplitLines at hl
  rcases List.mem_map.mp hl with ⟨raw, hraw, hmk⟩
  subst hmk
  exact splitOnChar_no_sep '\n' s.data raw hraw

/-- Inverse of `joinLines` on newline-free nonempty line lists. -/
theorem pySplitLines_joinLines (lines : List String) (hne : lines ≠ [])
    (hfree : ∀ l ∈ lines, '\n' ∉ l.data) :
    pySplitLines (joinLines lines) = lines := by
  unfold pySplitLines joinLines
  have hps : lines.map String.data ≠ [] := by
    intro h; exact hne (List.map_eq_nil_iff.mp h)
  have hfree2 : ∀ p ∈ lines.map String.data, '\n' ∉ p := by
    intro p hp
    rcases List.mem_map.mp hp with ⟨l, hl, hd⟩
    subst hd
    exact hfree l hl
  rw [show (String.mk (((lines.map String.data).intersperse ['\n']).flatten)).data =
      ((lines.map String.data).intersperse ['\n']).flatten from rfl]
  rw [splitOnChar_intercalate '\n' (lines.map String.data) hps hfree2]
  rw [List.map_map, show (String.mk ∘ String.data) = id from funext fun l => rfl,
    List.map_id]

theorem keptLines_mem (ls : List String) : ∀ l ∈ keptLines ls, l ∈ ls := by
  rw [keptLines_eq]
  cases ls with
  | nil => simp
  | cons l rest =>
    by_cases h : c9Removes l
    · simp only [h, if_true]
      intro x hx
      exact List.mem_cons_of_mem l hx
    · simp only [h, if_false]
      intro x hx
      exact hx

/-- C9 (amended): the first line is removed exactly when, stripped, it
is nonempty and does not start with `<`; the remaining lines are kept
unchanged and in order; and the result always contains a line that,
stripped and uppercased, starts with `<!DOCTYPE` — with
`<!DOCTYPE html>` inserted as the first line when no such line was
present after the strip.  (The doctype-presence test is
case-insensitive on the stripped line, not the literal `<!DOCTYPE`
test of the claim.) -/
theorem C9_fix_html_prefix (s : String) :
    fix_html_prefix s = c9Amended s ∧
    ∃ line ∈ pySplitLines ( fix_html_prefix s), hasDoctypeLine line = true := by
  have heq : fix_html_prefix s = c9Amended s := by
    unfold fix_html_prefix c9Amended c9Kept
    rw [keptLines_eq]
  refine ⟨heq, ?_⟩
  rw [heq]
  unfold c9Amended
  set kept := c9Kept s with hkept
  have hkmem : ∀ l ∈ kept, l ∈ pySplitLines s := by
    have := keptLines_mem (pySplitLines s)
    rw [keptLines_eq] at this
    rw [hkept]
    unfold c9Kept
    exact this
  have hkfree : ∀ l ∈ kept, '\n' ∉ l.data := by
    intro l hl
    exact pySplitLines_no_newline s l (hkmem l hl)
  by_cases hany : kept.any hasDoctypeLine = true
  · have hne : kept ≠ [] := by
      intro h
      rw [h] at hany
      simp at hany
    rcases List.any_eq_true.mp hany with ⟨line, hmem, hdt⟩
    refine ⟨line, ?_, hdt⟩
    rw [if_pos hany, pySplitLines_joinLines kept hne hkfree]
    exact hmem
  · refine ⟨"<!DOCTYPE html>", ?_, by decide⟩
    rw [if_neg hany, pySplitLines_joinLines ("<!DOCTYPE html>" :: kept) (by simp)
      (by
        intro l hl
        rcases List.mem_cons.mp hl with h | h
        · subst h; decide
        · exact hkfree l h)]
    exact List.mem_cons_self _ _

/-- C9 counterexample: on the input `<!doctype html>` the function
keeps the lowercase declaration and inserts nothing, so the result
contains no line literally starting with `<!DOCTYPE`, contradicting the
claim as stated. -/
theorem C9_counterexample : ¬ C9AsStated "<!doctype html>" := by
  intro h
  rcases h.2 with ⟨line, hmem, hpre⟩
  have hline : line = "<!doctype html>" := by
    have he : pySplitLines ( fix_html_prefix "<!doctype html>") = ["<!doctype html>"] := by
      decide
    rw [he] at hmem
    simpa using hmem
  rw [hline] at hpre
  exact absurd hpre (by decide)

/-! ## C3 — `translate_html` failure semantics -/

mutual
theorem findElemN_shape (tg : String) :
    ∀ (n r : Node), findElemN tg n = some r → ∃ a c, r = .elem tg a c
  | .text _, r, h => by simp [findElemN] at h
  | .comment _, r, h => by simp [findElemN] at h
  | .doctype _, r, h => by simp [findElemN] at h
  | .raw _, r, h => by simp [findElemN] at h
  | .elem t a c, r, h => by
    rw [findElemN] at h
    by_cases ht : t = tg
    · subst ht
      rw [if_pos rfl] at h
      injection h with h2
      exact ⟨a, c, h2.symm⟩
    · exact findElemF_shape tg c r (by simpa [ht] using h)

theorem findElemF_shape (tg : String) :
    ∀ (f : Forest) (r : Node), findElemF tg f = some r → ∃ a c, r = .elem tg a c
  | .nil, r, h => by simp [findElemF] at h
  | .cons n f, r, h => by
    rw [findElemF] at h
    cases hn : findElemN tg n with
    | some r2 =>
      rw [hn] at h
      injection h with h2
      subst h2
      exact findElemN_shape tg n r2 hn
    | none =>
      rw [hn] at h
      exact findElemF_shape tg f r h
end

/-- The extracted head fragment is always a `<head>` element (either the
one found in the document or the `<head></head>` default). -/
theorem head_content_shape (doc : Forest) :
    ∃ a c, (extract_html_parts doc).head_content = .elem "head" a c := by
  unfold extract_html_parts
  cases hf : findElemF "head" doc with
  | none => exact ⟨[], .nil, by simp [hf]⟩
  | some n =>
    rcases findElemF_shape "head" doc n hf with ⟨a, c, hn⟩
    exact ⟨a, c, by simp [hf, hn]⟩

/-- With empty translated title and description the head fragment is not
touched (translator.py lines 316 and 328 guard on truthiness). -/
theorem updateHeadForest_empty (hf : Forest) : updateHeadForest hf "" "" = hf := by
  rfl

/-- Shape of the reassembled document when title/description stay
untranslated: the head fragment is embedded verbatim. -/
theorem reassemble_keeps_head (doc : Forest) (st : List (String × Node)) (tb : Forest) :
    reassemble_html st (extract_html_parts doc) tb "" "" =
      fix_html_prefix
        ((if (extract_html_parts doc).doctype ≠ "" then (extract_html_parts doc).doctype
          else "<!DOCTYPE html>") ++
          "\n<html" ++ forceLang (extract_html_parts doc).html_attrs ++ ">\n" ++
          renderN (extract_html_parts doc).head_content ++ "\n" ++
          renderF (restore_math_content st tb) ++ "\n</html>") := by
  rcases head_content_shape doc with ⟨a, c, hh⟩
  have hfind : findElemF "head" (.cons (extract_html_parts doc).head_content .nil) =
      some (extract_html_parts doc).head_content := by
    rw [hh]
    simp [findElemF, findElemN]
  unfold reassemble_html
  simp only [updateHeadForest_empty, hfind]

/-- C3: for every input document, `translate_html` returns `None` — and
thus writes no file (`some` is the model of the write, see
`translate_html`) — whenever the body translation yields no usable
result, regardless of the metadata result; whereas when only the
metadata translation fails (`metaResult = none`), translation proceeds
and the written document embeds the *original* head fragment verbatim —
in particular its untranslated title and description (the
empty-translation guards leave the head unchanged,
`updateHeadForest_empty`). -/
theorem C3_body_failure_fatal_metadata_not (doc : Forest) (hne : doc ≠ Forest.nil)
    (tb : Forest) (metaResult : Option (String × String)) :
    translate_html doc metaResult none = none ∧
    translate_html doc none (some tb) =
      some (reassemble_html
        (clean_body_for_translation (.cons (extract_html_parts doc).body_content .nil)).2
        (extract_html_parts doc) tb "" "") ∧
    reassemble_html
        (clean_body_for_translation (.cons (extract_html_parts doc).body_content .nil)).2
        (extract_html_parts doc) tb "" "" =
      fix_html_prefix
        ((if (extract_html_parts doc).doctype ≠ "" then (extract_html_parts doc).doctype
          else "<!DOCTYPE html>") ++
          "\n<html" ++ forceLang (extract_html_parts doc).html_attrs ++ ">\n" ++
          renderN (extract_html_parts doc).head_content ++ "\n" ++
          renderF (restore_math_content
            (clean_body_for_translation
              (.cons (extract_html_parts doc).body_content .nil)).2 tb) ++
          "\n</html>") := by
  refine ⟨?_, ?_, ?_⟩
  · unfold translate_html
    rw [if_neg hne]
  · unfold translate_html
    rw [if_neg hne]
    simp only [ite_self]
  · exact reassemble_keeps_head doc _ tb

/-- Witness for C3 at a concrete document. -/
theorem C3_witness :
    translate_html (forestOf [.elem "html" [] .nil]) (some ("t", "d")) none = none ∧
    (translate_html (forestOf [.elem "html" [] .nil]) none
        (some (forestOf [.elem "body" [] .nil]))).isSome = true := by
  have h := C3_body_failure_fatal_metadata_not (forestOf [.elem "html" [] .nil])
    (by decide) (forestOf [.elem "body" [] .nil]) (some ("t", "d"))
  exact ⟨h.1, by rw [h.2.1]; rfl⟩

/-! ## C2 — restoration tolerates placeholder mismatch -/

mutual
/-- A subtree without placeholder spans is untouched by restoration. -/
theorem restoreN_no_spans (st : List (String × Node)) :
    ∀ n : Node, phSpansN n = [] → restoreN st n = n
  | .text _, _ => rfl
  | .comment _, _ => rfl
  | .doctype _, _ => rfl
  | .raw _, _ => rfl
  | .elem t a c, h => by
    by_cases ht : t = "span"
    · subst ht
      cases ha : aget a "data-math-placeholder" with
      | some tok =>
        have hps : phSpansN (Node.elem "span" a c) = (tok, getTextF c) :: phSpansF c := by
          simp [phSpansN, ha]
        rw [hps] at h
        simp at h
      | none =>
        have hps : phSpansN (Node.elem "span" a c) = phSpansF c := by
          simp [phSpansN, ha]
        have hrn : restoreN st (Node.elem "span" a c) =
            Node.elem "span" a (restoreF st c) := by
          simp [restoreN, ha]
        rw [hps] at h
        rw [hrn, restoreF_no_spans st c h]
    · have hps : phSpansN (Node.elem t a c) = phSpansF c := by
        cases ha : aget a "data-math-placeholder" with
        | some tok => simp [phSpansN, ha, ht]
        | none => simp [phSpansN, ha]
      have hrn : restoreN st (Node.elem t a c) = Node.elem t a (restoreF st c) := by
        simp [restoreN, ht]
      rw [hps] at h
      rw [hrn, restoreF_no_spans st c h]

theorem restoreF_no_spans (st : List (String × Node)) :
    ∀ f : Forest, phSpansF f = [] → restoreF st f = f
  | .nil, _ => rfl
  | .cons n f, h => by
    rw [phSpansF] at h
    rcases List.append_eq_nil.mp h with ⟨h1, h2⟩
    rw [restoreF, restoreN_no_spans st n h1, restoreF_no_spans st f h2]
end

mutual
/-- When no span of the subtree has a store entry, restoration is the
identity. -/
theorem restoreN_all_unmatched (st : List (String × Node)) :
    ∀ n : Node,
      (phSpansN n).all (fun p => (lookupStore st p.1).isNone) = true → restoreN st n = n
  | .text _, _ => rfl
  | .comment _, _ => rfl
  | .doctype _, _ => rfl
  | .raw _, _ => rfl
  | .elem t a c, h => by
    by_cases ht : t = "span"
    · subst ht
      cases ha : aget a "data-math-placeholder" with
      | some tok =>
        have hps : phSpansN (Node.elem "span" a c) = (tok, getTextF c) :: phSpansF c := by
          simp [phSpansN, ha]
        rw [hps, List.all_cons, Bool.and_eq_true] at h
        have hnone : lookupStore st tok = none := by
          cases hl : lookupStore st tok with
          | none => rfl
          | some v =>
            have := h.1
            rw [hl] at this
            simp at this
        have hrn : restoreN st (Node.elem "span" a c) =
            Node.elem "span" a (restoreF st c) := by
          simp [restoreN, ha, hnone]
        rw [hrn, restoreF_all_unmatched st c h.2]
      | none =>
        have hps : phSpansN (Node.elem "span" a c) = phSpansF c := by
          simp [phSpansN, ha]
        have hrn : restoreN st (Node.elem "span" a c) =
            Node.elem "span" a (restoreF st c) := by
          simp [restoreN, ha]
        rw [hps] at h
        rw [hrn, restoreF_all_unmatched st c h]
    · have hps : phSpansN (Node.elem t a c) = phSpansF c := by
        cases ha : aget a "data-math-placeholder" with
        | some tok => simp [phSpansN, ha, ht]
        | none => simp [phSpansN, ha]
      have hrn : restoreN st (Node.elem t a c) = Node.elem t a (restoreF st c) := by
        simp [restoreN, ht]
      rw [hps] at h
      rw [hrn, restoreF_all_unmatched st c h]

theorem restoreF_all_unmatched (st : List (String × Node)) :
    ∀ f : Forest,
      (phSpansF f).all (fun p => (lookupStore st p.1).isNone) = true → restoreF st f = f
  | .nil, _ => rfl
  | .cons n f, h => by
    rw [phSpansF, List.all_append, Bool.and_eq_true] at h
    rw [restoreF, restoreN_all_unmatched st n h.1, restoreF_all_unmatched st f h.2]
end

mutual
/-- Unmatched spans survive restoration, in order, when no placeholder
span is nested inside another. -/
theorem restoreN_sublist (st : List (String × Node)) :
    ∀ n : Node, noNestedPhN n = true →
      ((phSpansN n).filter fun p => (lookupStore st p.1).isNone).Sublist
        (phSpansN (restoreN st n))
  | .text _, _ => by simp [phSpansN]
  | .comment _, _ => by simp [phSpansN]
  | .doctype _, _ => by simp [phSpansN]
  | .raw _, _ => by simp [phSpansN]
  | .elem t a c, h => by
    by_cases ht : t = "span"
    · subst ht
      cases ha : aget a "data-math-placeholder" with
      | some tok =>
        have hph : isPhSpan (.elem "span" a c) = true := by
          simp [isPhSpan, ha]
        rw [noNestedPhN, if_pos hph] at h
        have hc : phSpansF c = [] := List.isEmpty_iff.mp h
        have hps : phSpansN (Node.elem "span" a c) = [(tok, getTextF c)] := by
          simp [phSpansN, ha, hc]
        rw [hps]
        cases hl : lookupStore st tok with
        | some v =>
          have hfil : List.filter (fun p => (lookupStore st p.1).isNone)
              [(tok, getTextF c)] = [] := by
            simp [List.filter_cons, hl]
          rw [hfil]
          exact List.nil_sublist _
        | none =>
          have hrn : restoreN st (Node.elem "span" a c) =
              Node.elem "span" a (restoreF st c) := by
            simp [restoreN, ha, hl]
          rw [hrn, restoreF_no_spans st c hc]
          have hfil : List.filter (fun p => (lookupStore st p.1).isNone)
              [(tok, getTextF c)] = [(tok, getTextF c)] := by
            simp [List.filter_cons, hl]
          rw [hfil, hps]
      | none =>
        have hph : isPhSpan (.elem "span" a c) = false := by
          simp [isPhSpan, ha]
        rw [noNestedPhN, hph] at h
        simp only [Bool.false_eq_true, if_false] at h
        have hps : phSpansN (Node.elem "span" a c) = phSpansF c := by
          simp [phSpansN, ha]
        have hrn : restoreN st (Node.elem "span" a c) =
            Node.elem "span" a (restoreF st c) := by
          simp [restoreN, ha]
        rw [hps, hrn]
        have hps2 : phSpansN (Node.elem "span" a (restoreF st c)) =
            phSpansF (restoreF st c) := by
          simp [phSpansN, ha]
        rw [hps2]
        exact restoreF_sublist st c h
    · have hph : isPhSpan (.elem t a c) = false := by
        simp [isPhSpan, ht]
      rw [noNestedPhN, hph] at h
      simp only [Bool.false_eq_true, if_false] at h
      have hps : phSpansN (Node.elem t a c) = phSpansF c := by
        cases ha : aget a "data-math-placeholder" with
        | some tok => simp [phSpansN, ha, ht]
        | none => simp [phSpansN, ha]
      have hrn : restoreN st (Node.elem t a c) = Node.elem t a (restoreF st c) := by
        simp [restoreN, ht]
      have hps2 : phSpansN (Node.elem t a (restoreF st c)) =
          phSpansF (restoreF st c) := by
        cases ha : aget a "data-math-placeholder" with
        | some tok => simp [phSpansN, ha, ht]
        | none => simp [phSpansN, ha]
      rw [hps, hrn, hps2]
      exact restoreF_sublist st c h

theorem restoreF_sublist (st : List (String × Node)) :
    ∀ f : Forest, noNestedPhF f = true →
      ((phSpansF f).filter fun p => (lookupStore st p.1).isNone).Sublist
        (phSpansF (restoreF st f))
  | .nil, _ => by simp [phSpansF, restoreF]
  | .cons n f, h => by
    rw [noNestedPhF, Bool.and_eq_true] at h
    rw [phSpansF, restoreF, phSpansF, List.filter_append]
    exact (restoreN_sublist st n h.1).append (restoreF_sublist st f h.2)
end

/-- C2 (amended): `_restore_math_content` is total — it never raises on
a placeholder mismatch — and, provided no placeholder span is nested
inside another placeholder span, every span whose token has no map
entry is left in place with its token and literal text, in order; when
*no* span of the body has a map entry the body is returned completely
unchanged (so map entries whose tokens are absent from the body are
simply ignored). -/
theorem C2_restore_tolerates_mismatch (st : List (String × Node)) (f : Forest)
    (h : noNestedPhF f = true) :
    (unmatchedSpans st f).Sublist (phSpansF (restore_math_content st f)) ∧
    ((phSpansF f).all (fun p => (lookupStore st p.1).isNone) = true →
      restore_math_content st f = f) := by
  constructor
  · unfold restore_math_content
    by_cases hst : st = []
    · rw [if_pos hst]
      subst hst
      have : unmatchedSpans [] f = phSpansF f := by
        unfold unmatchedSpans
        apply List.filter_eq_self.mpr
        intro p _
        rfl
      rw [this]
    · rw [if_neg hst]
      exact restoreF_sublist st f h
  · intro hall
    unfold restore_math_content
    by_cases hst : st = []
    · rw [if_pos hst]
    · rw [if_neg hst]
      exact restoreF_all_unmatched st f hall

/-- Witness for C2 at a concrete store and body: the store records a
token absent from the body, the body carries a span with an unrecorded
token, and restoration returns the body unchanged with the literal
token text in place. -/
theorem C2_restore_tolerates_mismatch_witness :
    (unmatchedSpans [("MATH_PLACEHOLDER_000", .elem "mjx-container" [] .nil)]
        (forestOf [.elem "span" [("data-math-placeholder", "ORPHAN")]
          (forestOf [.text "ORPHAN"]), .text "tail"])).Sublist
      (phSpansF (restore_math_content
        [("MATH_PLACEHOLDER_000", .elem "mjx-container" [] .nil)]
        (forestOf [.elem "span" [("data-math-placeholder", "ORPHAN")]
          (forestOf [.text "ORPHAN"]), .text "tail"]))) ∧
    restore_math_content [("MATH_PLACEHOLDER_000", .elem "mjx-container" [] .nil)]
        (forestOf [.elem "span" [("data-math-placeholder", "ORPHAN")]
          (forestOf [.text "ORPHAN"]), .text "tail"]) =
      forestOf [.elem "span" [("data-math-placeholder", "ORPHAN")]
          (forestOf [.text "ORPHAN"]), .text "tail"] := by
  have h := C2_restore_tolerates_mismatch
    [("MATH_PLACEHOLDER_000", .elem "mjx-container" [] .nil)]
    (forestOf [.elem "span" [("data-math-placeholder", "ORPHAN")]
      (forestOf [.text "ORPHAN"]), .text "tail"]) (by decide)
  exact ⟨h.1, h.2 (by decide)⟩

/-- C2 counterexample: as stated over *every* translated body the claim
fails — an unmatched span nested inside a matched span vanishes with
its replaced ancestor. -/
theorem C2_counterexample : ¬ C2AsStated := by
  intro h
  have hc := h c2Store c2Body
  have h1 : unmatchedSpans c2Store c2Body = [("T1", "T1")] := by decide
  have h2 : phSpansF (restore_math_content c2Store c2Body) = [] := by decide
  rw [h1, h2] at hc
  exact absurd (List.sublist_nil.mp hc) (by decide)

/-! ## C7 — Link Rewriter -/

theorem aget_aset_self (a : List (String × String)) (k v : String) :
    aget (aset a k v) k = some v := by
  induction a with
  | nil => simp [aset, aget]
  | cons p t ih =>
    obtain ⟨pk, pv⟩ := p
    by_cases h : k = pk
    · subst h
      simp [aset, aget]
    · simp [aset, aget, h, ih]

theorem aget_aset_ne (a : List (String × String)) (k v k2 : String) (h : k2 ≠ k) :
    aget (aset a k v) k2 = aget a k2 := by
  induction a with
  | nil => simp [aset, aget, h]
  | cons p t ih =>
    obtain ⟨pk, pv⟩ := p
    by_cases hk : k = pk
    · subst hk
      simp [aset, aget, h]
    · by_cases h2 : k2 = pk
      · simp [aset, aget, hk, h2]
      · simp [aset, aget, hk, h2, ih]

mutual
theorem convertLinksN_obs (m : List (String × String)) :
    ∀ n : Node,
      hrefsN (convertLinksN m n).1 = (hrefsN n).map (rewriteHref m) ∧
      srcsN (convertLinksN m n).1 = srcsN n ∧
      (convertLinksN m n).2.1 =
        ((hrefsN n).filter fun h => (convertHref m h).isSome).length ∧
      (convertLinksN m n).2.2 =
        ((hrefsN n).filter fun h => is_local_link h && (convertHref m h).isNone).length
  | .text _ => by simp [convertLinksN, hrefsN, srcsN]
  | .comment _ => by simp [convertLinksN, hrefsN, srcsN]
  | .doctype _ => by simp [convertLinksN, hrefsN, srcsN]
  | .raw _ => by simp [convertLinksN, hrefsN, srcsN]
  | .elem t a c => by
    have ihc := convertLinksF_obs m c
    cases ha : aget a "href" with
    | none =>
      have hcn : convertLinksN m (.elem t a c) =
          (.elem t a (convertLinksF m c).1, (convertLinksF m c).2.1,
            (convertLinksF m c).2.2) := by
        rw [convertLinksN, ha]
      rw [hcn]
      refine ⟨?_, ?_, ?_, ?_⟩
      · simp [hrefsN, ha, ihc.1]
      · simp [srcsN, ihc.2.1]
      · simp [hrefsN, ha, ihc.2.2.1]
      · simp [hrefsN, ha, ihc.2.2.2]
    | some href =>
      by_cases hl : is_local_link href = true
      · cases hcv : convertHref m href with
        | some fn =>
          have hcn : convertLinksN m (.elem t a c) =
              (.elem t (aset a "href" fn) (convertLinksF m c).1,
                (convertLinksF m c).2.1 + 1, (convertLinksF m c).2.2) := by
            rw [convertLinksN, ha]
            simp [hl, hcv]
          rw [hcn]
          refine ⟨?_, ?_, ?_, ?_⟩
          · simp [hrefsN, ha, aget_aset_self, rewriteHref, hcv, ihc.1]
          · simp [srcsN, aget_aset_ne a "href" fn "src" (by decide), ihc.2.1]
          · simp [hrefsN, ha, List.filter_cons, hcv, ihc.2.2.1, Nat.add_comm]
          · simp [hrefsN, ha, List.filter_cons, hl, hcv, ihc.2.2.2]
        | none =>
          have hcn : convertLinksN m (.elem t a c) =
              (.elem t a (convertLinksF m c).1,
                (convertLinksF m c).2.1, (convertLinksF m c).2.2 + 1) := by
            rw [convertLinksN, ha]
            simp [hl, hcv]
          rw [hcn]
          refine ⟨?_, ?_, ?_, ?_⟩
          · simp [hrefsN, ha, rewriteHref, hcv, ihc.1]
          · simp [srcsN, ihc.2.1]
          · simp [hrefsN, ha, List.filter_cons, hcv, ihc.2.2.1]
          · simp [hrefsN, ha, List.filter_cons, hl, hcv, ihc.2.2.2, Nat.add_comm]
      · have hlf : is_local_link href = false := by
          cases hb : is_local_link href with
          | true => exact absurd hb hl
          | false => rfl
        have hcv : convertHref m href = none := by
          unfold convertHref
          simp [hlf]
        have hcn : convertLinksN m (.elem t a c) =
            (.elem t a (convertLinksF m c).1,
              (convertLinksF m c).2.1, (convertLinksF m c).2.2) := by
          rw [convertLinksN, ha]
          simp [hlf]
        rw [hcn]
        refine ⟨?_, ?_, ?_, ?_⟩
        · simp [hrefsN, ha, rewriteHref, hcv, ihc.1]
        · simp [srcsN, ihc.2.1]
        · simp [hrefsN, ha, List.filter_cons, hcv, ihc.2.2.1]
        · simp [hrefsN, ha, List.filter_cons, hlf, ihc.2.2.2]

theorem convertLinksF_obs (m : List (String × String)) :
    ∀ f : Forest,
      hrefsF (convertLinksF m f).1 = (hrefsF f).map (rewriteHref m) ∧
      srcsF (convertLinksF m f).1 = srcsF f ∧
      (convertLinksF m f).2.1 =
        ((hrefsF f).filter fun h => (convertHref m h).isSome).length ∧
      (convertLinksF m f).2.2 =
        ((hrefsF f).filter fun h => is_local_link h && (convertHref m h).isNone).length
  | .nil => by simp [convertLinksF, hrefsF, srcsF]
  | .cons n f => by
    have ihn := convertLinksN_obs m n
    have ihf := convertLinksF_obs m f
    have hcf : convertLinksF m (.cons n f) =
        (.cons (convertLinksN m n).1 (convertLinksF m f).1,
          (convertLinksN m n).2.1 + (convertLinksF m f).2.1,
          (convertLinksN m n).2.2 + (convertLinksF m f).2.2) := by
      rw [convertLinksF]
    rw [hcf]
    refine ⟨?_, ?_, ?_, ?_⟩
    · simp [hrefsF, ihn.1, ihf.1]
    · simp [srcsF, ihn.2.1, ihf.2.1]
    · simp [hrefsF, ihn.2.2.1, ihf.2.2.1]
    · simp [hrefsF, ihn.2.2.2, ihf.2.2.2]
end

/-- C7: in every processed document, each `href` whose value matches the
source domain (and is not an anchor fragment or `mailto:`/`tel:`/
`javascript:`) is looked up verbatim and then in slash-stripped form and
rewritten exactly when one of the lookups resolves (`rewriteHref`);
non-resolving domain links are left unchanged and counted as skipped;
`src` attributes are never modified; and the file is rewritten on disk
only when at least one conversion occurred. -/
theorem C7_link_rewriter (m : List (String × String)) (f : Forest) :
    hrefsF (convert_links_in_html m f).1 = (hrefsF f).map (rewriteHref m) ∧
    srcsF (convert_links_in_html m f).1 = srcsF f ∧
    (convert_links_in_html m f).2.1 =
      ((hrefsF f).filter fun h => (convertHref m h).isSome).length ∧
    (convert_links_in_html m f).2.2 =
      ((hrefsF f).filter fun h => is_local_link h && (convertHref m h).isNone).length ∧
    link_process_html_file m f =
      (if (convert_links_in_html m f).2.1 > 0 then ((convert_links_in_html m f).1, true)
       else (f, false)) := by
  have h := convertLinksF_obs m f
  exact ⟨h.1, h.2.1, h.2.2.1, h.2.2.2, rfl⟩

/-! ## C1 — shielding and restoration of math containers -/

theorem digitsVal_append (l1 l2 : List Char) :
    digitsVal (l1 ++ l2) =
      l2.foldl (fun a c => 10 * a + (c.toNat - 48)) (digitsVal l1) := by
  unfold digitsVal
  rw [List.foldl_append]

theorem digitsVal_replicate_zero (k : Nat) (l : List Char) :
    digitsVal (List.replicate k '0' ++ l) = digitsVal l := by
  induction k with
  | zero => simp
  | succ m ih =>
    rw [List.replicate_succ, List.cons_append]
    unfold digitsVal at *
    simp only [List.foldl_cons]
    have : (10 * 0 + ('0'.toNat - 48)) = 0 := by decide
    rw [this] at *
    exact ih

theorem digitsVal_pad3 (l : List Char) : digitsVal (pad3 l) = digitsVal l := by
  unfold pad3
  exact digitsVal_replicate_zero _ l

theorem digitsVal_natDigitsGo :
    ∀ (fuel n : Nat), n ≤ fuel → digitsVal (natDigitsGo fuel n) = n := by
  intro fuel
  induction fuel with
  | zero =>
    intro n hn
    have : n = 0 := Nat.le_zero.mp hn
    subst this
    decide
  | succ m ih =>
    intro n hn
    rw [natDigitsGo]
    by_cases h : n < 10
    · rw [if_pos h]
      have : (digitChar n).toNat - 48 = n := by
        interval_cases n <;> decide
      unfold digitsVal
      simp [this]
    · rw [if_neg h]
      rw [digitsVal_append]
      have hdiv : n / 10 ≤ m := by
        have : n / 10 < n := Nat.div_lt_self (by omega) (by omega)
        omega
      rw [ih (n / 10) hdiv]
      simp only [List.foldl_cons, List.foldl_nil]
      have hm : (digitChar (n % 10)).toNat - 48 = n % 10 := by
        have hlt : n % 10 < 10 := Nat.mod_lt _ (by omega)
        set r := n % 10 with hr
        interval_cases r <;> decide
      rw [hm]
      omega

theorem digitsVal_natDigits (n : Nat) : digitsVal (natDigits n) = n :=
  digitsVal_natDigitsGo n n (Nat.le_refl n)

theorem mathToken_inj : Function.Injective mathToken := by
  intro i j h
  have hdata : "MATH_PLACEHOLDER_".data ++ pad3 (natDigits i) =
      "MATH_PLACEHOLDER_".data ++ pad3 (natDigits j) := congrArg String.data h
  have hpad := List.append_cancel_left hdata
  have := congrArg digitsVal hpad
  rw [digitsVal_pad3, digitsVal_pad3, digitsVal_natDigits, digitsVal_natDigits] at this
  exact this

/-- Keys of a store with `.Nodup` keys resolve to their own values. -/
theorem lookupStore_of_nodup :
    ∀ (st : List (String × Node)), (st.map Prod.fst).Nodup →
      ∀ e ∈ st, lookupStore st e.1 = some e.2 := by
  intro st
  induction st with
  | nil => intro _ e he; simp at he
  | cons p t ih =>
    intro hnd e he
    rw [List.map_cons, List.nodup_cons] at hnd
    rcases List.mem_cons.mp he with h | h
    · subst h
      rw [lookupStore]
      simp
    · rw [lookupStore]
      have hne : e.1 ≠ p.1 := by
        intro hq
        exact hnd.1 (hq ▸ List.mem_map.mpr ⟨e, h, rfl⟩)
      simp only [if_neg hne]
      exact ih hnd.2 e h

theorem lookupStore_eq_none (st : List (String × Node)) (q : String)
    (h : q ∉ st.map Prod.fst) : lookupStore st q = none := by
  induction st with
  | nil => rfl
  | cons p t ih =>
    rw [lookupStore]
    rw [List.map_cons] at h
    have h1 : q ≠ p.1 := fun hq => h (hq ▸ List.mem_cons_self _ _)
    simp only [if_neg h1]
    exact ih (fun hm => h (List.mem_cons_of_mem _ hm))

mutual
/-- The store keys are the tokens of the container indices, in order. -/
theorem entriesN_fst :
    ∀ (n : Node) (i : Nat), (entriesN n i).map Prod.fst =
      (List.range' i (containersN n).length).map mathToken
  | .text _, _ => rfl
  | .comment _, _ => rfl
  | .doctype _, _ => rfl
  | .raw _, _ => rfl
  | .elem t a c, i => by
    by_cases ht : t = "mjx-container"
    · subst ht
      have he : entriesN (Node.elem "mjx-container" a c) i =
          (mathToken i, Node.elem "mjx-container" a c) :: entriesF c (i + 1) := by
        rw [entriesN]
        simp
      have hc : containersN (Node.elem "mjx-container" a c) =
          Node.elem "mjx-container" a c :: containersF c := by
        rw [containersN]
        simp
      rw [he, hc, List.map_cons, entriesF_fst c (i + 1)]
      rw [List.length_cons]
      have : List.range' i ((containersF c).length + 1) =
          i :: List.range' (i + 1) (containersF c).length := rfl
      rw [this, List.map_cons]
    · have he : entriesN (Node.elem t a c) i = entriesF c i := by
        rw [entriesN]
        simp [ht]
      have hc : containersN (Node.elem t a c) = containersF c := by
        rw [containersN]
        simp [ht]
      rw [he, hc]
      exact entriesF_fst c i

theorem entriesF_fst :
    ∀ (f : Forest) (i : Nat), (entriesF f i).map Prod.fst =
      (List.range' i (containersF f).length).map mathToken
  | .nil, _ => rfl
  | .cons n f, i => by
    rw [entriesF, containersF, List.map_append, entriesN_fst n i,
      entriesF_fst f (i + (containersN n).length), List.length_append]
    rw [← List.map_append]
    congr 1
    have h2 := List.range'_append i (containersN n).length (containersF f).length 1
    rw [Nat.one_mul] at h2
    rw [h2, Nat.add_comm]
end

mutual
/-- The store values are the containers, in document order. -/
theorem entriesN_snd :
    ∀ (n : Node) (i : Nat), (entriesN n i).map Prod.snd = containersN n
  | .text _, _ => rfl
  | .comment _, _ => rfl
  | .doctype _, _ => rfl
  | .raw _, _ => rfl
  | .elem t a c, i => by
    by_cases ht : t = "mjx-container"
    · subst ht
      have he : entriesN (Node.elem "mjx-container" a c) i =
          (mathToken i, Node.elem "mjx-container" a c) :: entriesF c (i + 1) := by
        rw [entriesN]
        simp
      have hc : containersN (Node.elem "mjx-container" a c) =
          Node.elem "mjx-container" a c :: containersF c := by
        rw [containersN]
        simp
      rw [he, hc, List.map_cons, entriesF_snd c (i + 1)]
    · have he : entriesN (Node.elem t a c) i = entriesF c i := by
        rw [entriesN]
        simp [ht]
      have hc : containersN (Node.elem t a c) = containersF c := by
        rw [containersN]
        simp [ht]
      rw [he, hc]
      exact entriesF_snd c i

theorem entriesF_snd :
    ∀ (f : Forest) (i : Nat), (entriesF f i).map Prod.snd = containersF f
  | .nil, _ => rfl
  | .cons n f, i => by
    rw [entriesF, containersF, List.map_append, entriesN_snd n i,
      entriesF_snd f (i + (containersN n).length)]
end

mutual
/-- Comment removal leaves no comments. -/
theorem removeCommentsN_comments :
    ∀ (n n' : Node), removeCommentsN n = some n' → commentsN n' = []
  | .text _, _, h => by
    simp only [removeCommentsN, Option.some.injEq] at h
    subst h
    rfl
  | .comment _, _, h => by simp [removeCommentsN] at h
  | .doctype _, _, h => by
    simp only [removeCommentsN, Option.some.injEq] at h
    subst h
    rfl
  | .raw _, _, h => by
    simp only [removeCommentsN, Option.some.injEq] at h
    subst h
    rfl
  | .elem t a c, _, h => by
    simp only [removeCommentsN, Option.some.injEq] at h
    subst h
    rw [commentsN]
    exact removeCommentsF_comments c

theorem removeCommentsF_comments :
    ∀ (f : Forest), commentsF (removeCommentsF f) = []
  | .nil => rfl
  | .cons n f => by
    rw [removeCommentsF]
    cases hn : removeCommentsN n with
    | some n' =>
      rw [commentsF, removeCommentsN_comments n n' hn, removeCommentsF_comments f]
      rfl
    | none => exact removeCommentsF_comments f
end

mutual
/-- Comment removal maps the container list through `rcCont`. -/
theorem removeCommentsN_containers :
    ∀ (n n' : Node), removeCommentsN n = some n' →
      containersN n' = (containersN n).map rcCont
  | .text _, _, h => by
    simp only [removeCommentsN, Option.some.injEq] at h
    subst h
    rfl
  | .comment _, _, h => by simp [removeCommentsN] at h
  | .doctype _, _, h => by
    simp only [removeCommentsN, Option.some.injEq] at h
    subst h
    rfl
  | .raw _, _, h => by
    simp only [removeCommentsN, Option.some.injEq] at h
    subst h
    rfl
  | .elem t a c, _, h => by
    simp only [removeCommentsN, Option.some.injEq] at h
    subst h
    by_cases ht : t = "mjx-container"
    · subst ht
      have h1 : containersN (Node.elem "mjx-container" a (removeCommentsF c)) =
          Node.elem "mjx-container" a (removeCommentsF c) ::
            containersF (removeCommentsF c) := by
        rw [containersN]
        simp
      have h2 : containersN (Node.elem "mjx-container" a c) =
          Node.elem "mjx-container" a c :: containersF c := by
        rw [containersN]
        simp
      rw [h1, h2, List.map_cons, removeCommentsF_containers c]
      rfl
    · have h1 : containersN (Node.elem t a (removeCommentsF c)) =
          containersF (removeCommentsF c) := by
        rw [containersN]
        simp [ht]
      have h2 : containersN (Node.elem t a c) = containersF c := by
        rw [containersN]
        simp [ht]
      rw [h1, h2, removeCommentsF_containers c]

theorem removeCommentsF_containers :
    ∀ (f : Forest), containersF (removeCommentsF f) = (containersF f).map rcCont
  | .nil => rfl
  | .cons n f => by
    rw [removeCommentsF, containersF]
    cases hn : removeCommentsN n with
    | some n' =>
      rw [containersF, removeCommentsN_containers n n' hn,
        removeCommentsF_containers f, List.map_append]
    | none =>
      cases n with
      | comment s =>
        rw [removeCommentsF_containers f]
        rfl
      | text s => simp [removeCommentsN] at hn
      | doctype s => simp [removeCommentsN] at hn
      | raw s => simp [removeCommentsN] at hn
      | elem t a c => simp [removeCommentsN] at hn
end

mutual
/-- Comment removal preserves the placeholder-span tokens, in order. -/
theorem removeCommentsN_phTokens :
    ∀ (n n' : Node), removeCommentsN n = some n' →
      (phSpansN n').map Prod.fst = (phSpansN n).map Prod.fst
  | .text _, _, h => by
    simp only [removeCommentsN, Option.some.injEq] at h
    subst h
    rfl
  | .comment _, _, h => by simp [removeCommentsN] at h
  | .doctype _, _, h => by
    simp only [removeCommentsN, Option.some.injEq] at h
    subst h
    rfl
  | .raw _, _, h => by
    simp only [removeCommentsN, Option.some.injEq] at h
    subst h
    rfl
  | .elem t a c, _, h => by
    simp only [removeCommentsN, Option.some.injEq] at h
    subst h
    cases ha : aget a "data-math-placeholder" with
    | some tok =>
      by_cases ht : t = "span"
      · subst ht
        have h1 : phSpansN (Node.elem "span" a (removeCommentsF c)) =
            (tok, getTextF (removeCommentsF c)) :: phSpansF (removeCommentsF c) := by
          simp [phSpansN, ha]
        have h2 : phSpansN (Node.elem "span" a c) =
            (tok, getTextF c) :: phSpansF c := by
          simp [phSpansN, ha]
        rw [h1, h2, List.map_cons, List.map_cons, removeCommentsF_phTokens c]
      · have h1 : phSpansN (Node.elem t a (removeCommentsF c)) =
            phSpansF (removeCommentsF c) := by
          simp [phSpansN, ha, ht]
        have h2 : phSpansN (Node.elem t a c) = phSpansF c := by
          simp [phSpansN, ha, ht]
        rw [h1, h2, removeCommentsF_phTokens c]
    | none =>
      have h1 : phSpansN (Node.elem t a (removeCommentsF c)) =
          phSpansF (removeCommentsF c) := by
        simp [phSpansN, ha]
      have h2 : phSpansN (Node.elem t a c) = phSpansF c := by
        simp [phSpansN, ha]
      rw [h1, h2, removeCommentsF_phTokens c]

theorem removeCommentsF_phTokens :
    ∀ (f : Forest),
      (phSpansF (removeCommentsF f)).map Prod.fst = (phSpansF f).map Prod.fst
  | .nil => rfl
  | .cons n f => by
    rw [removeCommentsF, phSpansF]
    cases hn : removeCommentsN n with
    | some n' =>
      rw [phSpansF, List.map_append, List.map_append,
        removeCommentsN_phTokens n n' hn, removeCommentsF_phTokens f]
    | none =>
      cases n with
      | comment s =>
        rw [removeCommentsF_phTokens f]
        rfl
      | text s => simp [removeCommentsN] at hn
      | doctype s => simp [removeCommentsN] at hn
      | raw s => simp [removeCommentsN] at hn
      | elem t a c => simp [removeCommentsN] at hn
end

theorem string_span_ne_mjx : ("span" : String) ≠ "mjx-container" := by decide

mutual
/-- Index bookkeeping: shielding advances the counter by the number of
containers of the subtree (nested ones included). -/
theorem shieldN_idx :
    ∀ (n : Node) (i : Nat), (shieldN n i).2 = i + (containersN n).length
  | .text _, _ => rfl
  | .comment _, _ => rfl
  | .doctype _, _ => rfl
  | .raw _, _ => rfl
  | .elem t a c, i => by
    by_cases ht : t = "mjx-container"
    · subst ht
      have h1 : shieldN (Node.elem "mjx-container" a c) i =
          (phSpanNode (mathToken i), i + 1 + (containersF c).length) := by
        rw [shieldN]
        simp
      have h2 : containersN (Node.elem "mjx-container" a c) =
          Node.elem "mjx-container" a c :: containersF c := by
        rw [containersN]
        simp
      rw [h1, h2]
      simp only [List.length_cons]
      omega
    · have h1 : shieldN (Node.elem t a c) i =
          (.elem t a (shieldF c i).1, (shieldF c i).2) := by
        rw [shieldN]
        simp [ht]
      have h2 : containersN (Node.elem t a c) = containersF c := by
        rw [containersN]
        simp [ht]
      rw [h1, h2]
      exact shieldF_idx c i

theorem shieldF_idx :
    ∀ (f : Forest) (i : Nat), (shieldF f i).2 = i + (containersF f).length
  | .nil, _ => by simp [shieldF, containersF]
  | .cons n f, i => by
    rw [shieldF, containersF]
    simp only []
    rw [shieldF_idx f (shieldN n i).2, shieldN_idx n i, List.length_append]
    omega
end

mutual
/-- The shielded tree contains no `mjx-container`. -/
theorem shieldN_containers :
    ∀ (n : Node) (i : Nat), containersN (shieldN n i).1 = []
  | .text _, _ => rfl
  | .comment _, _ => rfl
  | .doctype _, _ => rfl
  | .raw _, _ => rfl
  | .elem t a c, i => by
    by_cases ht : t = "mjx-container"
    · subst ht
      have h1 : (shieldN (Node.elem "mjx-container" a c) i).1 =
          phSpanNode (mathToken i) := by
        rw [shieldN]
        simp
      rw [h1]
      rw [phSpanNode, containersN]
      simp [string_span_ne_mjx, containersF, containersN]
    · have h1 : (shieldN (Node.elem t a c) i).1 = .elem t a (shieldF c i).1 := by
        rw [shieldN]
        simp [ht]
      rw [h1, containersN]
      simp only [ht, if_neg ht]
      exact shieldF_containers c i

theorem shieldF_containers :
    ∀ (f : Forest) (i : Nat), containersF (shieldF f i).1 = []
  | .nil, _ => rfl
  | .cons n f, i => by
    rw [shieldF]
    simp only []
    rw [containersF, shieldN_containers n i, shieldF_containers f (shieldN n i).2]
    rfl
end

mutual
/-- Shielding introduces no comments. -/
theorem shieldN_comments :
    ∀ (n : Node) (i : Nat), commentsN n = [] → commentsN (shieldN n i).1 = []
  | .text _, _, _ => rfl
  | .comment _, _, h => h
  | .doctype _, _, _ => rfl
  | .raw _, _, _ => rfl
  | .elem t a c, i, h => by
    rw [commentsN] at h
    by_cases ht : t = "mjx-container"
    · subst ht
      have h1 : (shieldN (Node.elem "mjx-container" a c) i).1 =
          phSpanNode (mathToken i) := by
        rw [shieldN]
        simp
      rw [h1]
      rfl
    · have h1 : (shieldN (Node.elem t a c) i).1 = .elem t a (shieldF c i).1 := by
        rw [shieldN]
        simp [ht]
      rw [h1, commentsN]
      exact shieldF_comments c i h

theorem shieldF_comments :
    ∀ (f : Forest) (i : Nat), commentsF f = [] → commentsF (shieldF f i).1 = []
  | .nil, _, _ => rfl
  | .cons n f, i, h => by
    rw [commentsF] at h
    rcases List.append_eq_nil.mp h with ⟨h1, h2⟩
    rw [shieldF]
    simp only []
    rw [commentsF, shieldN_comments n i h1, shieldF_comments f (shieldN n i).2 h2]
    rfl
end

mutual
/-- With no pre-existing placeholder spans and no nested containers, the
shielded tree's placeholder spans are exactly the assigned tokens, in
index order, with token text. -/
theorem shieldN_spans :
    ∀ (n : Node) (i : Nat), phSpansN n = [] →
      ((containersN n).all fun c => match c with
        | .elem _ _ k => (containersF k).isEmpty
        | _ => true) = true →
      phSpansN (shieldN n i).1 =
        (List.range' i (containersN n).length).map fun j => (mathToken j, mathToken j)
  | .text _, _, _, _ => rfl
  | .comment _, _, _, _ => rfl
  | .doctype _, _, _, _ => rfl
  | .raw _, _, _, _ => rfl
  | .elem t a c, i, hsp, hnn => by
    by_cases ht : t = "mjx-container"
    · subst ht
      have hcn : containersN (Node.elem "mjx-container" a c) =
          Node.elem "mjx-container" a c :: containersF c := by
        rw [containersN]
        simp
      rw [hcn] at hnn
      rw [List.all_cons, Bool.and_eq_true] at hnn
      have hce : containersF c = [] := List.isEmpty_iff.mp hnn.1
      have h1 : (shieldN (Node.elem "mjx-container" a c) i).1 =
          phSpanNode (mathToken i) := by
        rw [shieldN]
        simp
      rw [h1, hcn]
      have h2 : phSpansN (phSpanNode (mathToken i)) =
          [(mathToken i, mathToken i)] := by
        rw [phSpanNode]
        have ha : aget [("data-math-placeholder", mathToken i)]
            "data-math-placeholder" = some (mathToken i) := by
          simp [aget]
        simp [phSpansN, ha, phSpansF, getTextF, getTextN]
      rw [h2, hce]
      rfl
    · have hcn : containersN (Node.elem t a c) = containersF c := by
        rw [containersN]
        simp [ht]
      rw [hcn] at hnn
      have h1 : (shieldN (Node.elem t a c) i).1 = .elem t a (shieldF c i).1 := by
        rw [shieldN]
        simp [ht]
      cases ha : aget a "data-math-placeholder" with
      | some tok =>
        by_cases hts : t = "span"
        · subst hts
          have hx : phSpansN (Node.elem "span" a c) = (tok, getTextF c) :: phSpansF c := by
            simp [phSpansN, ha]
          rw [hx] at hsp
          exact absurd hsp (List.cons_ne_nil _ _)
        · have hspc : phSpansF c = [] := by
            have hx : phSpansN (Node.elem t a c) = phSpansF c := by
              simp [phSpansN, ha, hts]
            rwa [hx] at hsp
          have hsp2 : phSpansN (Node.elem t a (shieldF c i).1) =
              phSpansF (shieldF c i).1 := by
            simp [phSpansN, ha, hts]
          rw [h1, hsp2, hcn]
          exact shieldF_spans c i hspc hnn
      | none =>
        have hspc : phSpansF c = [] := by
          have hx : phSpansN (Node.elem t a c) = phSpansF c := by
            simp [phSpansN, ha]
          rwa [hx] at hsp
        have hsp2 : phSpansN (Node.elem t a (shieldF c i).1) =
            phSpansF (shieldF c i).1 := by
          simp [phSpansN, ha]
        rw [h1, hsp2, hcn]
        exact shieldF_spans c i hspc hnn

theorem shieldF_spans :
    ∀ (f : Forest) (i : Nat), phSpansF f = [] →
      ((containersF f).all fun c => match c with
        | .elem _ _ k => (containersF k).isEmpty
        | _ => true) = true →
      phSpansF (shieldF f i).1 =
        (List.range' i (containersF f).length).map fun j => (mathToken j, mathToken j)
  | .nil, _, _, _ => rfl
  | .cons n f, i, hsp, hnn => by
    rw [phSpansF] at hsp
    rcases List.append_eq_nil.mp hsp with ⟨h1, h2⟩
    rw [containersF, List.all_append, Bool.and_eq_true] at hnn
    rw [shieldF]
    simp only []
    rw [phSpansF, shieldN_spans n i h1 hnn.1, shieldN_idx n i,
      shieldF_spans f (i + (containersN n).length) h2 hnn.2]
    rw [containersF, List.length_append, ← List.map_append]
    congr 1
    have h3 := List.range'_append i (containersN n).length (containersF f).length 1
    rw [Nat.one_mul] at h3
    rw [h3, Nat.add_comm]
end

mutual
/-- A container-free subtree is untouched by shielding. -/
theorem shieldN_nop :
    ∀ (n : Node) (i : Nat), containersN n = [] → (shieldN n i).1 = n
  | .text _, _, _ => rfl
  | .comment _, _, _ => rfl
  | .doctype _, _, _ => rfl
  | .raw _, _, _ => rfl
  | .elem t a c, i, h => by
    by_cases ht : t = "mjx-container"
    · subst ht
      have hcn : containersN (Node.elem "mjx-container" a c) =
          Node.elem "mjx-container" a c :: containersF c := by
        rw [containersN]
        simp
      rw [hcn] at h
      exact absurd h (List.cons_ne_nil _ _)
    · have hcn : containersN (Node.elem t a c) = containersF c := by
        rw [containersN]
        simp [ht]
      rw [hcn] at h
      have h1 : (shieldN (Node.elem t a c) i).1 = .elem t a (shieldF c i).1 := by
        rw [shieldN]
        simp [ht]
      rw [h1, shieldF_nop c i h]

theorem shieldF_nop :
    ∀ (f : Forest) (i : Nat), containersF f = [] → (shieldF f i).1 = f
  | .nil, _, _ => rfl
  | .cons n f, i, h => by
    rw [containersF] at h
    rcases List.append_eq_nil.mp h with ⟨h1, h2⟩
    rw [shieldF]
    simp only []
    rw [shieldN_nop n i h1, shieldF_nop f (shieldN n i).2 h2]
end

mutual
/-- The round trip: restoring the shielded tree against any store that
resolves every recorded token to its recorded container, and resolves no
pre-existing span token, recovers the tree. -/
theorem restore_shieldN :
    ∀ (n : Node) (i : Nat) (st : List (String × Node)),
      (∀ e ∈ entriesN n i, lookupStore st e.1 = some e.2) →
      (∀ p ∈ phSpansN n, lookupStore st p.1 = none) →
      restoreN st (shieldN n i).1 = n
  | .text _, _, _, _, _ => rfl
  | .comment _, _, _, _, _ => rfl
  | .doctype _, _, _, _, _ => rfl
  | .raw _, _, _, _, _ => rfl
  | .elem t a c, i, st, hlook, hfresh => by
    by_cases ht : t = "mjx-container"
    · subst ht
      have h1 : (shieldN (Node.elem "mjx-container" a c) i).1 =
          phSpanNode (mathToken i) := by
        rw [shieldN]
        simp
      have he : entriesN (Node.elem "mjx-container" a c) i =
          (mathToken i, Node.elem "mjx-container" a c) :: entriesF c (i + 1) := by
        rw [entriesN]
        simp
      have hl : lookupStore st (mathToken i) =
          some (Node.elem "mjx-container" a c) := by
        have := hlook (mathToken i, Node.elem "mjx-container" a c)
          (by rw [he]; exact List.mem_cons_self _ _)
        exact this
      rw [h1, phSpanNode]
      have ha : aget [("data-math-placeholder", mathToken i)]
          "data-math-placeholder" = some (mathToken i) := by
        simp [aget]
      have hfc : findContainer (Node.elem "mjx-container" a c) =
          some (Node.elem "mjx-container" a c) := by
        rw [findContainer, findElemF, findElemN]
        simp
      rw [restoreN]
      simp [ha, hl, hfc]
    · have h1 : (shieldN (Node.elem t a c) i).1 = .elem t a (shieldF c i).1 := by
        rw [shieldN]
        simp [ht]
      have he : entriesN (Node.elem t a c) i = entriesF c i := by
        rw [entriesN]
        simp [ht]
      have hlookc : ∀ e ∈ entriesF c i, lookupStore st e.1 = some e.2 := by
        intro e hme
        exact hlook e (by rw [he]; exact hme)
      rw [h1]
      cases ha : aget a "data-math-placeholder" with
      | some tok =>
        by_cases hts : t = "span"
        · subst hts
          have hx : phSpansN (Node.elem "span" a c) =
              (tok, getTextF c) :: phSpansF c := by
            simp [phSpansN, ha]
          have hfreshc : ∀ p ∈ phSpansF c, lookupStore st p.1 = none := by
            intro p hp
            exact hfresh p (by rw [hx]; exact List.mem_cons_of_mem _ hp)
          have htok : lookupStore st tok = none :=
            hfresh (tok, getTextF c) (by rw [hx]; exact List.mem_cons_self _ _)
          have hrn : restoreN st (Node.elem "span" a (shieldF c i).1) =
              Node.elem "span" a (restoreF st (shieldF c i).1) := by
            simp [restoreN, ha, htok]
          rw [hrn, restore_shieldF c i st hlookc hfreshc]
        · have hx : phSpansN (Node.elem t a c) = phSpansF c := by
            simp [phSpansN, ha, hts]
          have hfreshc : ∀ p ∈ phSpansF c, lookupStore st p.1 = none := by
            intro p hp
            exact hfresh p (by rw [hx]; exact hp)
          have hrn : restoreN st (Node.elem t a (shieldF c i).1) =
              Node.elem t a (restoreF st (shieldF c i).1) := by
            simp [restoreN, hts]
          rw [hrn, restore_shieldF c i st hlookc hfreshc]
      | none =>
        have hx : phSpansN (Node.elem t a c) = phSpansF c := by
          simp [phSpansN, ha]
        have hfreshc : ∀ p ∈ phSpansF c, lookupStore st p.1 = none := by
          intro p hp
          exact hfresh p (by rw [hx]; exact hp)
        by_cases hts : t = "span"
        · subst hts
          have hrn : restoreN st (Node.elem "span" a (shieldF c i).1) =
              Node.elem "span" a (restoreF st (shieldF c i).1) := by
            simp [restoreN, ha]
          rw [hrn, restore_shieldF c i st hlookc hfreshc]
        · have hrn : restoreN st (Node.elem t a (shieldF c i).1) =
              Node.elem t a (restoreF st (shieldF c i).1) := by
            simp [restoreN, hts]
          rw [hrn, restore_shieldF c i st hlookc hfreshc]

theorem restore_shieldF :
    ∀ (f : Forest) (i : Nat) (st : List (String × Node)),
      (∀ e ∈ entriesF f i, lookupStore st e.1 = some e.2) →
      (∀ p ∈ phSpansF f, lookupStore st p.1 = none) →
      restoreF st (shieldF f i).1 = f
  | .nil, _, _, _, _ => rfl
  | .cons n f, i, st, hlook, hfresh => by
    have hlookn : ∀ e ∈ entriesN n i, lookupStore st e.1 = some e.2 := by
      intro e hme
      apply hlook
      rw [entriesF]
      exact List.mem_append_left _ hme
    have hlookf : ∀ e ∈ entriesF f (i + (containersN n).length),
        lookupStore st e.1 = some e.2 := by
      intro e hme
      apply hlook
      rw [entriesF]
      exact List.mem_append_right _ hme
    have hfreshn : ∀ p ∈ phSpansN n, lookupStore st p.1 = none := by
      intro p hp
      apply hfresh
      rw [phSpansF]
      exact List.mem_append_left _ hp
    have hfreshf : ∀ p ∈ phSpansF f, lookupStore st p.1 = none := by
      intro p hp
      apply hfresh
      rw [phSpansF]
      exact List.mem_append_right _ hp
    rw [shieldF]
    simp only []
    rw [restoreF, restore_shieldN n i st hlookn hfreshn, shieldN_idx n i,
      restore_shieldF f (i + (containersN n).length) st hlookf hfreshf]
end

/-- C1 (amended): for a body with `N` containers (document order, nested
containers included), shielding records exactly `N` distinct store
entries — token `i` mapping to the `i`-th container with its comments
stripped (comment removal runs first, reaching inside containers) — and
removes every comment; restoring the shielded body yields the original
body with comments removed, in particular all `N` containers
comment-stripped, unchanged and in the same relative order; and when
the body has no pre-existing placeholder span and no container nests
inside another, the `i`-th container is replaced by a span whose
`data-math-placeholder` attribute and text are both `mathToken i`, and
no container remains in the shielded body.  The freshness hypothesis
(no pre-existing span already carries an assigned token) is what the
counterexample shows necessary. -/
theorem C1_shield_restore (b : Forest)
    (hfresh : freshTokens b = true)
    (hnos : noPreSpans b = true)
    (hnon : noNestedContainers b = true) :
    (clean_body_for_translation b).2.map Prod.fst =
      (List.range (containersF b).length).map mathToken ∧
    ((clean_body_for_translation b).2.map Prod.fst).Nodup ∧
    (clean_body_for_translation b).2.map Prod.snd = (containersF b).map rcCont ∧
    commentsF (clean_body_for_translation b).1 = [] ∧
    restore_math_content (clean_body_for_translation b).2
      (clean_body_for_translation b).1 = removeCommentsF b ∧
    containersF (restore_math_content (clean_body_for_translation b).2
      (clean_body_for_translation b).1) = (containersF b).map rcCont ∧
    phSpansF (clean_body_for_translation b).1 =
      (List.range (containersF b).length).map (fun i => (mathToken i, mathToken i)) ∧
    containersF (clean_body_for_translation b).1 = [] := by
  have hclean : clean_body_for_translation b =
      ((shieldF (removeCommentsF b) 0).1, entriesF (removeCommentsF b) 0) := rfl
  have hgc : containersF (removeCommentsF b) = (containersF b).map rcCont :=
    removeCommentsF_containers b
  have hglen : (containersF (removeCommentsF b)).length = (containersF b).length := by
    rw [hgc, List.length_map]
  have hkeys : (entriesF (removeCommentsF b) 0).map Prod.fst =
      (List.range (containersF b).length).map mathToken := by
    rw [entriesF_fst (removeCommentsF b) 0, hglen, List.range_eq_range']
  have hnodup : ((entriesF (removeCommentsF b) 0).map Prod.fst).Nodup := by
    rw [hkeys]
    exact (List.nodup_range _).map mathToken_inj
  have hsnd : (entriesF (removeCommentsF b) 0).map Prod.snd =
      (containersF b).map rcCont := by
    rw [entriesF_snd (removeCommentsF b) 0, hgc]
  have hfreshg : ∀ p ∈ phSpansF (removeCommentsF b),
      lookupStore (entriesF (removeCommentsF b) 0) p.1 = none := by
    intro p hp
    apply lookupStore_eq_none
    rw [hkeys]
    intro hmem
    rcases List.mem_map.mp hmem with ⟨i, hi, htok⟩
    have hilt : i < (containersF b).length := List.mem_range.mp hi
    have hp1 : p.1 ∈ (phSpansF (removeCommentsF b)).map Prod.fst :=
      List.mem_map.mpr ⟨p, hp, rfl⟩
    rw [removeCommentsF_phTokens b] at hp1
    rcases List.mem_map.mp hp1 with ⟨q, hq, hq1⟩
    have hall := List.all_eq_true.mp hfresh q hq
    have hall2 := List.all_eq_true.mp hall i (List.mem_range.mpr hilt)
    have : q.1 ≠ mathToken i := of_decide_eq_true hall2
    exact this (hq1.trans htok.symm)
  have hrt : restore_math_content (entriesF (removeCommentsF b) 0)
      (shieldF (removeCommentsF b) 0).1 = removeCommentsF b := by
    by_cases hst : entriesF (removeCommentsF b) 0 = []
    · have hlen0 : (containersF (removeCommentsF b)).length = 0 := by
        have := entriesF_fst (removeCommentsF b) 0
        rw [hst] at this
        have hlen := congrArg List.length this
        simp at hlen
        omega
      have hnil : containersF (removeCommentsF b) = [] :=
        List.eq_nil_of_length_eq_zero hlen0
      rw [restore_math_content, if_pos hst]
      exact shieldF_nop (removeCommentsF b) 0 hnil
    · rw [restore_math_content, if_neg hst]
      exact restore_shieldF (removeCommentsF b) 0 (entriesF (removeCommentsF b) 0)
        (lookupStore_of_nodup _ hnodup) hfreshg
  have hspg : phSpansF (removeCommentsF b) = [] := by
    have hb : phSpansF b = [] := List.isEmpty_iff.mp hnos
    have := removeCommentsF_phTokens b
    rw [hb] at this
    simp at this
    exact this
  have hnng : ((containersF (removeCommentsF b)).all fun c => match c with
      | .elem _ _ k => (containersF k).isEmpty
      | _ => true) = true := by
    rw [hgc]
    apply List.all_eq_true.mpr
    intro c' hc'
    rcases List.mem_map.mp hc' with ⟨c, hc, hcc⟩
    have hpc := List.all_eq_true.mp hnon c hc
    subst hcc
    cases c with
    | elem t a k =>
      rw [rcCont]
      simp only []
      rw [removeCommentsF_containers k]
      have hkempty : (containersF k).isEmpty = true := hpc
      have : containersF k = [] := List.isEmpty_iff.mp hkempty
      rw [this]
      rfl
    | text s => rfl
    | comment s => rfl
    | doctype s => rfl
    | raw s => rfl
  have hspans : phSpansF (shieldF (removeCommentsF b) 0).1 =
      (List.range (containersF b).length).map (fun i => (mathToken i, mathToken i)) := by
    rw [shieldF_spans (removeCommentsF b) 0 hspg hnng, hglen, List.range_eq_range']
  rw [hclean]
  exact ⟨hkeys, hnodup, hsnd,
    shieldF_comments (removeCommentsF b) 0 (removeCommentsF_comments b),
    hrt, by rw [hrt, hgc], hspans, shieldF_containers (removeCommentsF b) 0⟩

/-- Witness for the amended C1 at a concrete body with one comment and
two containers. -/
theorem C1_shield_restore_witness :
    restore_math_content (clean_body_for_translation c1GoodBody).2
      (clean_body_for_translation c1GoodBody).1 = removeCommentsF c1GoodBody ∧
    (clean_body_for_translation c1GoodBody).2.map Prod.fst =
      [mathToken 0, mathToken 1] ∧
    phSpansF (clean_body_for_translation c1GoodBody).1 =
      [(mathToken 0, mathToken 0), (mathToken 1, mathToken 1)] := by
  have h := C1_shield_restore c1GoodBody (by decide) (by decide) (by decide)
  refine ⟨h.2.2.2.2.1, ?_, ?_⟩
  · rw [h.1]
    decide
  · rw [h.2.2.2.2.2.2.1]
    decide

/-- C1 counterexample: on `c1Body` (a pre-existing span carrying the
first assigned token, a container holding a comment and a nested
container) the claim as stated fails: the recorded markup is not the
full original markup (a comment was stripped), the nested container is
not replaced by its own span, and restoration duplicates a container
instead of returning the originals. -/
theorem C1_counterexample : ¬ C1AsStated c1Body := by
  intro h
  have h5 := h.2.2.2.2.1
  revert h5
  decide

/-! ## C5 — the URL mapping of `build_url_mapping` -/

theorem dget_append (d1 d2 : List (String × String)) (q : String) :
    dget (d1 ++ d2) q =
      match dget d2 q with
      | some r => some r
      | none => dget d1 q := by
  induction d1 with
  | nil =>
    cases h : dget d2 q <;> simp [dget, h]
  | cons p t ih =>
    cases p with
    | mk a b =>
      rw [List.cons_append, dget, ih]
      cases h : dget d2 q
      · rfl
      · rfl

theorem registerLine_eq (existing : List String) (d : List (String × String))
    (l : String) :
    registerLine existing d l = d ++ registerLine existing [] l := by
  simp only [registerLine]
  split_ifs with h1 h2
  · simp
  · simp
  · simp

theorem registerLine_gated (existing : List String) (l : String)
    (hg : url_to_filename l ∈ existing) :
    registerLine existing [] l =
      [(l, url_to_filename l), (slashVariant l, url_to_filename l)] := by
  by_cases he : endsWithSlash l = true <;>
    simp [registerLine, slashVariant, hg, he]

theorem registerLine_ungated (existing : List String) (l : String)
    (hg : url_to_filename l ∉ existing) :
    registerLine existing [] l = [] := by
  simp [registerLine, hg]

theorem foldl_registerLine (existing : List String) (ls : List String) :
    ∀ d : List (String × String),
      ls.foldl (registerLine existing) d =
        d ++ ls.foldl (registerLine existing) [] := by
  induction ls with
  | nil => intro d; simp
  | cons l t ih =>
    intro d
    rw [List.foldl_cons, List.foldl_cons, ih (registerLine existing d l),
        ih (registerLine existing [] l), registerLine_eq existing d l,
        List.append_assoc]

theorem dget_registerLine (existing : List String) (l k v : String)
    (h : dget (registerLine existing [] l) k = some v) :
    url_to_filename l ∈ existing ∧ v = url_to_filename l ∧
      (k = l ∨ k = slashVariant l) := by
  by_cases hg : url_to_filename l ∈ existing
  · rw [registerLine_gated existing l hg] at h
    refine ⟨hg, ?_⟩
    by_cases h2 : k = slashVariant l
    · simp [dget, h2] at h
      exact ⟨h.symm, Or.inr h2⟩
    · by_cases h1 : k = l
      · subst h1
        simp [dget, h2] at h
        exact ⟨h.symm, Or.inl rfl⟩
      · simp [dget, h2, h1] at h
  · rw [registerLine_ungated existing l hg] at h
    simp [dget] at h

theorem dget_foldl_some (existing : List String) (k v : String)
    (ls : List String)
    (h : dget (ls.foldl (registerLine existing) []) k = some v) :
    ∃ l ∈ ls, url_to_filename l ∈ existing ∧ v = url_to_filename l ∧
      (k = l ∨ k = slashVariant l) := by
  induction ls with
  | nil => simp [dget] at h
  | cons l t ih =>
    rw [List.foldl_cons, foldl_registerLine existing t, dget_append] at h
    cases hd : dget (t.foldl (registerLine existing) []) k with
    | some r =>
      rw [hd] at h
      simp at h
      subst h
      obtain ⟨a, ha, hrest⟩ := ih hd
      exact ⟨a, List.mem_cons_of_mem l ha, hrest⟩
    | none =>
      rw [hd] at h
      simp at h
      obtain ⟨hg, hv, hk⟩ := dget_registerLine existing l k v h
      exact ⟨l, List.mem_cons_self l t, hg, hv, hk⟩

theorem dget_foldl_isSome (existing : List String) (k : String)
    (ls : List String) (l : String) (hl : l ∈ ls)
    (hg : url_to_filename l ∈ existing)
    (hk : k = l ∨ k = slashVariant l) :
    ∃ w, dget (ls.foldl (registerLine existing) []) k = some w := by
  induction ls with
  | nil => simp at hl
  | cons a t ih =>
    rw [List.foldl_cons, foldl_registerLine existing t, dget_append]
    cases hd : dget (t.foldl (registerLine existing) []) k with
    | some r => exact ⟨r, rfl⟩
    | none =>
      rcases List.mem_cons.mp hl with h1 | h2
      · subst h1
        rw [registerLine_gated existing l hg]
        by_cases h2 : k = slashVariant l
        · exact ⟨url_to_filename l, by simp [dget, h2]⟩
        · rcases hk with hk | hk
          · subst hk
            exact ⟨url_to_filename k, by simp [dget, h2]⟩
          · exact absurd hk h2
      · obtain ⟨w, hw⟩ := ih h2
        rw [hd] at hw
        cases hw

/-- Claim C5: the claimed extent of the mapping is refuted on a manifest
URL with a two-segment path: the code's replace-all of `scaling-book/`
yields `part1/tpus.html` (which does not exist, so no entry at all),
while the claim's last-segment rule yields the existing `tpus.html` and
demands an entry. -/
theorem C5_counterexample : ¬ C5AsStated [c5Url] ["tpus.html"] := by
  intro h
  have hx := (h c5Url "tpus.html").mpr
    (Or.inl ⟨c5Url, by decide, by decide, by decide, Or.inl rfl⟩)
  exact absurd hx (by decide)

/-- Claim C5 (amended): for a manifest whose derived key→filename
relation is functional (no registered key is assigned two different
filenames), `build_url_mapping` contains exactly the entries given by:
derive the filename of each cleaned manifest line by `_url_to_filename`
(which for paths under `scaling-book/` removes every occurrence of that
prefix and keeps the whole remainder — not just the last segment);
include the line only if that filename exists in the output set; for
each included line register the exact line and its trailing-slash
variant as keys to that filename; plus the bare site root (with and
without slash) to `scaling-book.html` when that file exists. -/
theorem C5_mapping (manifest existing : List String)
    (hfun : ∀ k v1 v2, mappingEntry manifest existing k v1 →
      mappingEntry manifest existing k v2 → v1 = v2) :
    ∀ k v, dget (build_url_mapping manifest existing) k = some v ↔
      mappingEntry manifest existing k v := by
  have fwd : ∀ k v, dget (build_url_mapping manifest existing) k = some v →
      mappingEntry manifest existing k v := by
    intro k v h
    by_cases hroot : "scaling-book.html" ∈ existing
    · have hb : build_url_mapping manifest existing =
          (cleanManifest manifest).foldl (registerLine existing) [] ++
            [(base_domain, "scaling-book.html"),
             (base_domain ++ "/", "scaling-book.html")] := by
        simp [build_url_mapping, hroot]
      rw [hb, dget_append] at h
      cases hd : dget [(base_domain, "scaling-book.html"),
          (base_domain ++ "/", "scaling-book.html")] k with
      | some r =>
        rw [hd] at h
        simp at h
        subst h
        by_cases h2 : k = base_domain ++ "/"
        · simp [dget, h2] at hd
          exact Or.inr ⟨hroot, Or.inr h2, hd.symm⟩
        · by_cases h1 : k = base_domain
          · subst h1
            simp [dget, h2] at hd
            exact Or.inr ⟨hroot, Or.inl rfl, hd.symm⟩
          · simp [dget, h2, h1] at hd
      | none =>
        rw [hd] at h
        simp at h
        exact Or.inl (dget_foldl_some existing k v (cleanManifest manifest) h)
    · have hb : build_url_mapping manifest existing =
          (cleanManifest manifest).foldl (registerLine existing) [] := by
        simp [build_url_mapping, hroot]
      rw [hb] at h
      exact Or.inl (dget_foldl_some existing k v (cleanManifest manifest) h)
  intro k v
  constructor
  · exact fwd k v
  · intro hkv
    have hex : ∃ w, dget (build_url_mapping manifest existing) k = some w := by
      rcases hkv with ⟨l, hl, hg, hv, hk⟩ | ⟨hroot, hk, hv⟩
      · obtain ⟨w, hw⟩ :=
          dget_foldl_isSome existing k (cleanManifest manifest) l hl hg hk
        by_cases hroot : "scaling-book.html" ∈ existing
        · have hb : build_url_mapping manifest existing =
              (cleanManifest manifest).foldl (registerLine existing) [] ++
                [(base_domain, "scaling-book.html"),
                 (base_domain ++ "/", "scaling-book.html")] := by
            simp [build_url_mapping, hroot]
          rw [hb, dget_append]
          cases hd : dget [(base_domain, "scaling-book.html"),
              (base_domain ++ "/", "scaling-book.html")] k with
          | some r => exact ⟨r, rfl⟩
          | none => exact ⟨w, by rw [hw]⟩
        · have hb : build_url_mapping manifest existing =
              (cleanManifest manifest).foldl (registerLine existing) [] := by
            simp [build_url_mapping, hroot]
          rw [hb]
          exact ⟨w, hw⟩
      · have hb : build_url_mapping manifest existing =
            (cleanManifest manifest).foldl (registerLine existing) [] ++
              [(base_domain, "scaling-book.html"),
               (base_domain ++ "/", "scaling-book.html")] := by
          simp [build_url_mapping, hroot]
        rw [hb, dget_append]
        rcases hk with hk | hk
        · refine ⟨"scaling-book.html", ?_⟩
          rw [hk]
          rw [show dget [(base_domain, "scaling-book.html"),
              (base_domain ++ "/", "scaling-book.html")] base_domain =
              some "scaling-book.html" from by decide]
        · refine ⟨"scaling-book.html", ?_⟩
          rw [hk]
          rw [show dget [(base_domain, "scaling-book.html"),
              (base_domain ++ "/", "scaling-book.html")] (base_domain ++ "/") =
              some "scaling-book.html" from by decide]
    obtain ⟨w, hw⟩ := hex
    rw [hfun k w v (fwd k w hw) hkv] at hw
    exact hw

/-- Witness for the amended C5 on a one-line manifest whose derived file
exists. -/
theorem C5_mapping_witness :
    dget (build_url_mapping ["https://jax-ml.github.io/scaling-book/roofline"]
        ["roofline.html"])
      "https://jax-ml.github.io/scaling-book/roofline" = some "roofline.html" := by
  have hfun : ∀ k v1 v2,
      mappingEntry ["https://jax-ml.github.io/scaling-book/roofline"]
        ["roofline.html"] k v1 →
      mappingEntry ["https://jax-ml.github.io/scaling-book/roofline"]
        ["roofline.html"] k v2 → v1 = v2 := by
    have honly : ∀ k v,
        mappingEntry ["https://jax-ml.github.io/scaling-book/roofline"]
          ["roofline.html"] k v → v = "roofline.html" := by
      intro k v h
      rcases h with ⟨l, hl, hg, hv, hk⟩ | ⟨hroot, hk, hv⟩
      · have hc : cleanManifest ["https://jax-ml.github.io/scaling-book/roofline"] =
            ["https://jax-ml.github.io/scaling-book/roofline"] := by decide
        rw [hc] at hl
        have hle : l = "https://jax-ml.github.io/scaling-book/roofline" := by
          simpa using hl
        rw [hle] at hv
        rw [hv]
        decide
      · exact absurd hroot (by decide)
    intro k v1 v2 h1 h2
    rw [honly k v1 h1, honly k v2 h2]
  exact (C5_mapping ["https://jax-ml.github.io/scaling-book/roofline"]
      ["roofline.html"] hfun
      "https://jax-ml.github.io/scaling-book/roofline" "roofline.html").mpr
    (Or.inl ⟨"https://jax-ml.github.io/scaling-book/roofline", by decide,
      by decide, by decide, Or.inl rfl⟩)

/-! ## C6 — the decompose/reassemble round trip -/

theorem splitOnChar_append_cons (c : Char) (l1 l2 : List Char) (h : c ∉ l1) :
    splitOnChar c (l1 ++ c :: l2) = l1 :: splitOnChar c l2 := by
  induction l1 with
  | nil =>
    rw [List.nil_append, splitOnChar]
    simp
  | cons a q ih =>
    have ha : a ≠ c := fun hh => h (hh ▸ List.mem_cons_self a q)
    have hq : c ∉ q := fun hh => h (List.mem_cons_of_mem a hh)
    rw [List.cons_append, splitOnChar, ih hq]
    simp [ha]

theorem joinLines_cons (l : String) (ls : List String) (h : ls ≠ []) :
    joinLines (l :: ls) = l ++ "\n" ++ joinLines ls := by
  cases ls with
  | nil => exact absurd rfl h
  | cons a t =>
    apply String.ext
    show ((l.data :: (a :: t).map String.data).intersperse ['\n']).flatten = _
    rw [show (l.data :: (a :: t).map String.data).intersperse ['\n'] =
        l.data :: ['\n'] :: ((a :: t).map String.data).intersperse ['\n'] from rfl]
    simp [String.data_append, joinLines]

/-- `_fix_html_prefix` does not touch a string that already starts with
the line `<!DOCTYPE html>`. -/
theorem fix_html_prefix_doctype (s : String) :
    fix_html_prefix ("<!DOCTYPE html>" ++ ("\n" ++ s)) =
      "<!DOCTYPE html>" ++ ("\n" ++ s) := by
  have hsplit : pySplitLines ("<!DOCTYPE html>" ++ ("\n" ++ s)) =
      "<!DOCTYPE html>" :: pySplitLines s := by
    unfold pySplitLines
    rw [show ("<!DOCTYPE html>" ++ ("\n" ++ s)).data =
        "<!DOCTYPE html>".data ++ '\n' :: s.data from rfl]
    rw [splitOnChar_append_cons '\n' _ _ (by decide)]
    rfl
  have hkept : keptLines ("<!DOCTYPE html>" :: pySplitLines s) =
      "<!DOCTYPE html>" :: pySplitLines s := by
    rw [keptLines_eq]
    simp [show c9Removes "<!DOCTYPE html>" = false from by decide]
  have hany : (("<!DOCTYPE html>" :: pySplitLines s).any hasDoctypeLine) = true := by
    simp [List.any_cons, show hasDoctypeLine "<!DOCTYPE html>" = true from by decide]
  simp only [ fix_html_prefix]
  rw [hsplit, hkept, hany]
  simp only [if_true]
  rw [joinLines_cons _ _ (pySplitLines_ne_nil s), joinLines_pySplitLines]
  rfl

/-- Claim C6: refuted as stated — on a document serialized without
newlines between the structural tags, the reassembler's fixed `\n`
separators change the text beyond the doctype and the `lang`
attribute. -/
theorem C6_counterexample : ¬ C6AsStated c6Doc := by
  unfold C6AsStated
  decide

/-- Claim C6 (amended): the round trip is exact — not merely up to
doctype and `lang` — on documents already in the serializer's canonical
shape: an optional document-type declaration whose content does not
itself spell a `<!DOCTYPE` prefix (as parsed declarations never do),
then an `html` element carrying no attributes or exactly `lang="en"`,
whose children are the head and the body separated by newline text
nodes, the head containing no `body` tag.  For such documents,
decomposing with `extract_html_parts` and reassembling with
`reassemble_html` (body unchanged, empty translated title/description)
yields exactly the serialization of the same document with the doctype
normalized to `<!DOCTYPE html>` and the root attributes forced to
`lang="zh-CN"`.  On general documents the round trip also inserts/alters
whitespace, as the counterexample shows. -/
theorem C6_canonical_roundtrip (useDt : Bool) (dt : String)
    (attrs ah ab : List (String × String)) (hc bc : Forest)
    (hdtf : pyStartswith (pyUpper (pyStrip dt)) "<!DOCTYPE" = false)
    (hattrs : attrs = [] ∨ attrs = [("lang", "en")])
    (hnb : findElemF "body" hc = none) :
    reassembleUnchanged
        (canonDoc useDt dt attrs (.elem "head" ah hc) (.elem "body" ab bc)) =
      renderF (canonDoc true "DOCTYPE html" [("lang", "zh-CN")]
        (.elem "head" ah hc) (.elem "body" ab bc)) := by
  have h1 : forceLang (renderAttrs attrs) = " lang=\"zh-CN\"" := by
    rcases hattrs with h | h <;> subst h <;> decide
  have hfdt : findDoctypeStr
      (canonDoc useDt dt attrs (.elem "head" ah hc) (.elem "body" ab bc)) = none := by
    cases useDt <;> simp [canonDoc, forestOf, findDoctypeStr, strRepr, hdtf]
  have hfhead : findElemF "head"
      (canonDoc useDt dt attrs (.elem "head" ah hc) (.elem "body" ab bc)) =
      some (.elem "head" ah hc) := by
    cases useDt <;> simp [canonDoc, forestOf, findElemF, findElemN]
  have hfbody : findElemF "body"
      (canonDoc useDt dt attrs (.elem "head" ah hc) (.elem "body" ab bc)) =
      some (.elem "body" ab bc) := by
    cases useDt <;> simp [canonDoc, forestOf, findElemF, findElemN, hnb]
  have hfhtml : findElemF "html"
      (canonDoc useDt dt attrs (.elem "head" ah hc) (.elem "body" ab bc)) =
      some (.elem "html" attrs
        (forestOf [.text "\n", .elem "head" ah hc, .text "\n",
          .elem "body" ab bc, .text "\n"])) := by
    cases useDt <;> simp [canonDoc, forestOf, findElemF, findElemN]
  simp only [reassembleUnchanged, reassemble_html, extract_html_parts]
  rw [hfdt, hfhead, hfbody, hfhtml]
  simp only [Option.getD_some, Option.getD_none]
  rw [h1]
  simp only [show ("<!DOCTYPE html>" ≠ "") = True from by simp, if_true,
    updateHeadForest, restore_math_content, findElemF, findElemN]
  have hre : (("<!DOCTYPE html>" : String) ++ "\n<html" ++ " lang=\"zh-CN\"" ++ ">\n" ++
      renderN (Node.elem "head" ah hc) ++ "\n" ++
      renderF (Forest.cons (Node.elem "body" ab bc) Forest.nil) ++ "\n</html>") =
    "<!DOCTYPE html>" ++ ("\n" ++ ("<html" ++ (" lang=\"zh-CN\"" ++ (">\n" ++
      (renderN (Node.elem "head" ah hc) ++ ("\n" ++
        (renderF (Forest.cons (Node.elem "body" ab bc) Forest.nil) ++ "\n</html>"))))))) := by
    apply String.ext
    simp [String.data_append, List.append_assoc]
  rw [hre, fix_html_prefix_doctype]
  apply String.ext
  simp [String.data_append, List.append_assoc, canonDoc, forestOf,
    renderF, renderN, renderAttrs]

/-- Witness for the amended C6 at a concrete canonical document. -/
theorem C6_canonical_roundtrip_witness :
    reassembleUnchanged (canonDoc true "DOCTYPE html" [("lang", "en")]
        (.elem "head" [] (forestOf [.elem "title" [] (forestOf [.text "T"])]))
        (.elem "body" [] (forestOf [.text "B"]))) =
      renderF (canonDoc true "DOCTYPE html" [("lang", "zh-CN")]
        (.elem "head" [] (forestOf [.elem "title" [] (forestOf [.text "T"])]))
        (.elem "body" [] (forestOf [.text "B"]))) :=
  C6_canonical_roundtrip true "DOCTYPE html" [("lang", "en")] [] []
    (forestOf [.elem "title" [] (forestOf [.text "T"])])
    (forestOf [.text "B"]) (by decide) (Or.inr rfl) (by decide)

/-! ## C8 — sentinel idempotence of the Provenance Annotator -/


theorem isPrefixOf_append_nonq (q : Char → Bool) (p : List Char)
    (hp : ∀ c ∈ p, q c = false) (hne : p ≠ []) :
    ∀ (l1 l2 : List Char), (∀ c ∈ l2, q c = true) →
      p.isPrefixOf (l1 ++ l2) = true → p.isPrefixOf l1 = true := by
  induction p with
  | nil => exact absurd rfl hne
  | cons a p ihp =>
    intro l1 l2 hl2 hpre
    cases l1 with
    | nil =>
      exfalso
      cases l2 with
      | nil => simp [List.isPrefixOf] at hpre
      | cons b t =>
        simp [List.isPrefixOf] at hpre
        have hqa := hp a (List.mem_cons_self a p)
        have hqb := hl2 b (List.mem_cons_self b t)
        rw [hpre.1] at hqa
        rw [hqa] at hqb
        cases hqb
    | cons b t =>
      rw [List.cons_append] at hpre
      simp only [List.isPrefixOf, Bool.and_eq_true, beq_iff_eq] at hpre ⊢
      refine ⟨hpre.1, ?_⟩
      by_cases hpn : p = []
      · subst hpn; simp [List.isPrefixOf]
      · exact ihp (fun c hc => hp c (List.mem_cons_of_mem a hc)) hpn t l2 hl2 hpre.2

theorem infixChars_all_q (q : Char → Bool) (p : List Char)
    (hp : ∀ c ∈ p, q c = false) (hne : p ≠ []) :
    ∀ l2 : List Char, (∀ c ∈ l2, q c = true) → infixChars p l2 ≠ true := by
  intro l2
  induction l2 with
  | nil =>
    intro _ h
    rw [infixChars] at h
    cases p with
    | nil => exact hne rfl
    | cons a t => simp [List.isPrefixOf] at h
  | cons b t ih =>
    intro hl2 h
    rw [infixChars] at h
    rcases Bool.or_eq_true_iff.mp h with h1 | h2
    · cases p with
      | nil => exact hne rfl
      | cons a pt =>
        simp [List.isPrefixOf] at h1
        have hqa := hp a (List.mem_cons_self a pt)
        have hqb := hl2 b (List.mem_cons_self b t)
        rw [h1.1] at hqa
        rw [hqa] at hqb
        cases hqb
    · exact ih (fun c hc => hl2 c (List.mem_cons_of_mem b hc)) h2

theorem infixChars_append_nonq (q : Char → Bool) (p : List Char)
    (hp : ∀ c ∈ p, q c = false) (hne : p ≠ []) :
    ∀ (l1 l2 : List Char), (∀ c ∈ l2, q c = true) →
      infixChars p (l1 ++ l2) = true → infixChars p l1 = true := by
  intro l1
  induction l1 with
  | nil =>
    intro l2 hl2 h
    rw [List.nil_append] at h
    exact absurd h (infixChars_all_q q p hp hne l2 hl2)
  | cons a t ih =>
    intro l2 hl2 h
    rw [List.cons_append, infixChars] at h
    rw [infixChars]
    rcases Bool.or_eq_true_iff.mp h with h1 | h2
    · rw [show a :: (t ++ l2) = (a :: t) ++ l2 from rfl] at h1
      simp [isPrefixOf_append_nonq q p hp hne (a :: t) l2 hl2 h1]
    · simp [ih l2 hl2 h2]

theorem infixChars_dropWhile_nonq (q : Char → Bool) (p : List Char)
    (hp : ∀ c ∈ p, q c = false) (hne : p ≠ []) :
    ∀ l : List Char, infixChars p l = true →
      infixChars p (l.dropWhile q) = true := by
  intro l
  induction l with
  | nil => intro h; simpa using h
  | cons a t ih =>
    intro h
    rw [List.dropWhile_cons]
    by_cases hqa : q a = true
    · rw [if_pos hqa]
      apply ih
      rw [infixChars] at h
      rcases Bool.or_eq_true_iff.mp h with h1 | h2
      · exfalso
        cases p with
        | nil => exact hne rfl
        | cons x xs =>
          simp [List.isPrefixOf] at h1
          have := hp x (List.mem_cons_self x xs)
          rw [h1.1] at this
          rw [this] at hqa
          cases hqa
      · exact h2
    · rw [if_neg hqa]
      exact h

theorem infixChars_dropTrail_nonq (q : Char → Bool) (p : List Char)
    (hp : ∀ c ∈ p, q c = false) (hne : p ≠ []) (l : List Char)
    (h : infixChars p l = true) : infixChars p (dropTrail q l) = true := by
  have h2 := List.reverse_append (l.reverse.takeWhile q) (l.reverse.dropWhile q)
  rw [List.takeWhile_append_dropWhile, List.reverse_reverse] at h2
  have hq2 : ∀ c ∈ (l.reverse.takeWhile q).reverse, q c = true := by
    intro c hc
    rw [List.mem_reverse] at hc
    exact List.mem_takeWhile_imp hc
  rw [h2] at h
  exact infixChars_append_nonq q p hp hne (dropTrail q l) _ hq2 h

set_option maxHeartbeats 1000000 in
/-- The generated header block always contains the sentinel marker. -/
theorem sentinel_in_header (url : String) :
    pyIn sentinelMarker (create_header_html url) = true := by
  unfold pyIn create_header_html pyStrip
  apply infixChars_dropTrail_nonq pyWs _ (by decide) (by decide)
  apply infixChars_dropWhile_nonq pyWs _ (by decide) (by decide)
  simp only [headerRaw, String.data_append]
  iterate 60 apply infixChars_append_right
  decide



mutual
theorem insertRenderN (p : Node → Bool) (hdr : Node) (s : List Char)
    (hs : infixChars s (renderN hdr).data = true) :
    ∀ (n n2 : Node), insertFirstMatchN p hdr n = some n2 →
      infixChars s (renderN n2).data = true
  | .elem t a c, n2, h => by
    rw [insertFirstMatchN] at h
    by_cases hp : p (.elem t a c) = true
    · rw [if_pos hp] at h
      injection h with h
      subst h
      simp only [renderN, renderF, String.data_append]
      apply infixChars_append_right
      apply infixChars_append_right
      apply infixChars_append_right
      apply infixChars_append_left
      apply infixChars_append_right
      exact hs
    · rw [if_neg hp] at h
      cases hc : insertFirstMatchF p hdr c with
      | some c2 =>
        rw [hc] at h
        injection h with h
        subst h
        simp only [renderN, String.data_append]
        apply infixChars_append_right
        apply infixChars_append_right
        apply infixChars_append_right
        apply infixChars_append_left
        exact insertRenderF p hdr s hs c c2 hc
      | none => rw [hc] at h; cases h
  | .text x, n2, h => by simp [insertFirstMatchN] at h
  | .comment x, n2, h => by simp [insertFirstMatchN] at h
  | .doctype x, n2, h => by simp [insertFirstMatchN] at h
  | .raw x, n2, h => by simp [insertFirstMatchN] at h

theorem insertRenderF (p : Node → Bool) (hdr : Node) (s : List Char)
    (hs : infixChars s (renderN hdr).data = true) :
    ∀ (f : Forest) (f2 : Forest), insertFirstMatchF p hdr f = some f2 →
      infixChars s (renderF f2).data = true
  | .nil, f2, h => by simp [insertFirstMatchF] at h
  | .cons n f, f2, h => by
    rw [insertFirstMatchF] at h
    cases hn : insertFirstMatchN p hdr n with
    | some n1 =>
      rw [hn] at h
      injection h with h
      subst h
      simp only [renderF, String.data_append]
      apply infixChars_append_right
      exact insertRenderN p hdr s hs n n1 hn
    | none =>
      rw [hn] at h
      cases hf : insertFirstMatchF p hdr f with
      | some f1 =>
        rw [hf] at h
        injection h with h
        subst h
        simp only [renderF, String.data_append]
        apply infixChars_append_left
        exact insertRenderF p hdr s hs f f1 hf
      | none => rw [hf] at h; cases h
end

mutual
theorem dtRenderN (hdr : Node) (s : List Char)
    (hs : infixChars s (renderN hdr).data = true) :
    ∀ (n n2 : Node), dtInsertN hdr n = some n2 →
      infixChars s (renderN n2).data = true
  | .elem t a c, n2, h => by
    rw [dtInsertN] at h
    cases hc : dtInsertF hdr c with
    | foundHere =>
      rw [hc] at h
      injection h with h
      subst h
      simp only [renderN, renderF, String.data_append]
      apply infixChars_append_right
      apply infixChars_append_right
      apply infixChars_append_right
      apply infixChars_append_left
      apply infixChars_append_right
      exact hs
    | foundIn c2 =>
      rw [hc] at h
      injection h with h
      subst h
      simp only [renderN, String.data_append]
      apply infixChars_append_right
      apply infixChars_append_right
      apply infixChars_append_right
      apply infixChars_append_left
      exact dtRenderF hdr s hs c c2 hc
    | notFound => rw [hc] at h; cases h
  | .text x, n2, h => by simp [dtInsertN] at h
  | .comment x, n2, h => by simp [dtInsertN] at h
  | .doctype x, n2, h => by simp [dtInsertN] at h
  | .raw x, n2, h => by simp [dtInsertN] at h

theorem dtRenderF (hdr : Node) (s : List Char)
    (hs : infixChars s (renderN hdr).data = true) :
    ∀ (f : Forest) (f2 : Forest), dtInsertF hdr f = .foundIn f2 →
      infixChars s (renderF f2).data = true
  | .nil, f2, h => by simp [dtInsertF] at h
  | .cons n f, f2, h => by
    rw [dtInsertF] at h
    by_cases hdt : isDTitle n = true
    · rw [if_pos hdt] at h
      cases h
    · rw [if_neg hdt] at h
      cases hn : dtInsertN hdr n with
      | some n1 =>
        rw [hn] at h
        injection h with h
        subst h
        simp only [renderF, String.data_append]
        apply infixChars_append_right
        exact dtRenderN hdr s hs n n1 hn
      | none =>
        rw [hn] at h
        cases hf : dtInsertF hdr f with
        | foundHere => rw [hf] at h; cases h
        | foundIn f1 =>
          rw [hf] at h
          injection h with h
          subst h
          simp only [renderF, String.data_append]
          apply infixChars_append_left
          exact dtRenderF hdr s hs f f1 hf
        | notFound => rw [hf] at h; cases h
end

/-- Any substring of the inserted node's serialization is a substring of
the mutated document's serialization. -/
theorem insertHeaderDoc_render (hdr : Node) (doc doc1 : Forest) (s : List Char)
    (hs : infixChars s (renderN hdr).data = true)
    (h : insertHeaderDoc hdr doc = some doc1) :
    infixChars s (renderF doc1).data = true := by
  unfold insertHeaderDoc at h
  cases h1 : insertFirstMatchF isPostDistillStrict hdr doc with
  | some d =>
    rw [h1] at h
    injection h with h
    subst h
    exact insertRenderF _ hdr s hs doc d h1
  | none =>
    rw [h1] at h
    cases h2 : insertFirstMatchF isPostDistillLoose hdr doc with
    | some d =>
      rw [h2] at h
      injection h with h
      subst h
      exact insertRenderF _ hdr s hs doc d h2
    | none =>
      rw [h2] at h
      cases h3 : dtInsertF hdr doc with
      | foundHere =>
        rw [h3] at h
        injection h with h
        subst h
        simp only [renderF, String.data_append]
        apply infixChars_append_right
        exact hs
      | foundIn d =>
        rw [h3] at h
        injection h with h
        subst h
        exact dtRenderF hdr s hs doc d h3
      | notFound => rw [h3] at h; cases h

/-- Claim C8 (amended): the sentinel check does block mutation (a file
whose rendered content contains `translation-info` is returned
untouched), and the pipeline is idempotent — a second run on the output
of a first run never writes again, because an inserted header itself
contains the sentinel and a failed insertion leaves the document
unchanged.  But the sentinel check *alone* does not determine insertion:
a file is mutated iff it is in the URL mapping, its content lacks the
sentinel, and an insertion point (post-distill div or d-title parent)
exists. -/
theorem C8_sentinel_and_insertion (url : String) (doc : Forest) :
    (pyIn sentinelMarker (renderF doc) = true →
      header_process_html_file (some url) doc = (doc, false)) ∧
    ((header_process_html_file (some url) doc).2 = true ↔
      (pyIn sentinelMarker (renderF doc) = false ∧
        insertHeaderDoc (.raw (create_header_html url)) doc ≠ none)) ∧
    header_process_html_file (some url)
        (header_process_html_file (some url) doc).1 =
      ((header_process_html_file (some url) doc).1, false) ∧
    header_process_html_file none doc = (doc, false) := by
  have hA : pyIn sentinelMarker (renderF doc) = true →
      header_process_html_file (some url) doc = (doc, false) := by
    intro h
    simp [header_process_html_file, h]
  refine ⟨hA, ?_, ?_, rfl⟩
  · cases hs : pyIn sentinelMarker (renderF doc) with
    | true =>
      rw [hA hs]
      simp [hs]
    | false =>
      cases hi : insertHeaderDoc (.raw (create_header_html url)) doc with
      | some d1 => simp [header_process_html_file, hs, hi]
      | none => simp [header_process_html_file, hs, hi]
  · cases hs : pyIn sentinelMarker (renderF doc) with
    | true =>
      rw [hA hs]
      exact hA hs
    | false =>
      cases hi : insertHeaderDoc (.raw (create_header_html url)) doc with
      | none =>
        have hp : header_process_html_file (some url) doc = (doc, false) := by
          simp [header_process_html_file, hs, hi]
        rw [hp]
        exact hp
      | some d1 =>
        have hp : header_process_html_file (some url) doc = (d1, true) := by
          simp [header_process_html_file, hs, hi]
        rw [hp]
        have hsent : pyIn sentinelMarker (renderF d1) = true := by
          have e : renderN (.raw (create_header_html url)) = create_header_html url := by
            simp [renderN]
          have hs0 : infixChars sentinelMarker.data
              (renderN (.raw (create_header_html url))).data = true := by
            rw [e]
            exact sentinel_in_header url
          exact insertHeaderDoc_render _ doc d1 _ hs0 hi
        show header_process_html_file (some url) d1 = (d1, false)
        simp [header_process_html_file, hsent]


/-- Claim C8: refuted as stated — on a mapped document with no sentinel
and no insertion point, no insertion occurs although the sentinel check
passes, so the sentinel check alone does not determine insertion. -/
theorem C8_counterexample : ¬ C8AsStated (some "x") c8Doc := by
  unfold C8AsStated
  decide

/-- Witness for the amended C8: on a mapped document with a
`post distill` div and no sentinel, the first run inserts and the second
run is a no-op. -/
theorem C8_sentinel_and_insertion_witness :
    (header_process_html_file
        (some "https://jax-ml.github.io/scaling-book/tpus") c8GoodDoc).2 = true ∧
    header_process_html_file (some "https://jax-ml.github.io/scaling-book/tpus")
        (header_process_html_file
          (some "https://jax-ml.github.io/scaling-book/tpus") c8GoodDoc).1 =
      ((header_process_html_file
          (some "https://jax-ml.github.io/scaling-book/tpus") c8GoodDoc).1, false) := by
  have h := C8_sentinel_and_insertion
    "https://jax-ml.github.io/scaling-book/tpus" c8GoodDoc
  exact ⟨(h.2.1).mpr ⟨by decide, by decide⟩, h.2.2.1⟩

/-! ## C4 — `translate_html_file` short-circuits or always fails -/

/-- C4: if the target file exists and `force_translate` is false,
`translate_html_file` returns the existing target path without
translating; in every other case it returns `None` and no file is
produced, because the inner call passes a third positional argument to
`translate_html` (which accepts only the content and a context string),
so the call raises `TypeError` and is caught — whatever the inner
translation would have produced. -/
theorem C4_translate_html_file (te force : Bool) (n : String) (inner : Option String) :
    ((te && !force) = true →
      translate_html_file te force n inner = some (TRANS_DIR ++ "/" ++ n)) ∧
    ((te && !force) = false → translate_html_file te force n inner = none) := by
  constructor <;> intro h <;>
    simp [translate_html_file, h, callArity, translate_html_args]

/-- Witness for C4: all three concrete cases. -/
theorem C4_translate_html_file_witness :
    translate_html_file true false "tpus.html" (some "would-be-result") =
      some "output/trans/tpus.html" ∧
    translate_html_file false false "tpus.html" (some "would-be-result") = none ∧
    translate_html_file true true "tpus.html" (some "would-be-result") = none := by
  refine ⟨?_, ?_, ?_⟩
  · exact (C4_translate_html_file true false "tpus.html" (some "would-be-result")).1 rfl
  · exact (C4_translate_html_file false false "tpus.html" (some "would-be-result")).2 rfl
  · exact (C4_translate_html_file true true "tpus.html" (some "would-be-result")).2 rfl

end ScalingBook
